import Mathlib

/-!
Verification of the skim-management core of the activitysim repository
(`activitysim/core/los.py` and the pipeline behavior documented by
`activitysim/abm/test/test_pipeline.py`).

The Python source is shallowly embedded: dictionaries become insertion-ordered
association lists (Python 3.7+ dict semantics), numpy machine values become
`Nat`/`Int`, fatal `assert`/`raise` become `Except LosError`, and omx files are
records carrying the data the code reads from them (name, shape, matrix names,
offset mappings).
-/

/-- Association-list lookup with `DecidableEq`, returning the value of the
first pair whose key matches (Python dict lookup on our ordered-pair model). -/
def alookup {α β : Type} [DecidableEq α] (k : α) : List (α × β) → Option β
  | [] => none
  | (a, b) :: rest => if a = k then some b else alookup k rest

/-- Python `d[k] = v` on an insertion-ordered dict modelled as an association
list: overwrite the existing entry in place, else append at the end. -/
def pyDictSet {α β : Type} [DecidableEq α] (d : List (α × β)) (k : α) (v : β) : List (α × β) :=
  if (alookup k d).isSome then d.map (fun q => if q.1 = k then (k, v) else q)
  else d ++ [(k, v)]

/-- `str.partition('__')` scanning for the first occurrence of `"__"` in the
character list: `some (before, after)` on a hit, `none` when absent. -/
def partChars : List Char → Option (List Char × List Char)
  | [] => none
  | c :: rest =>
    if c = '_' ∧ rest.head? = some '_' then some ([], rest.tail)
    else (partChars rest).map (fun p => (c :: p.1, p.2))

/-- Python `skim_name.partition('__')`. -/
def partitionName (s : String) : String × String × String :=
  match partChars s.data with
  | none => (s, "", "")
  | some (a, b) => (⟨a⟩, "__", ⟨b⟩)

/-- Matrix element type (`np.float32` etc.); `load_skim_info` hardcodes
`np.float32`, other constructors exist so the unsupported-dtype branch of
`allocate_skim_buffer` is representable. -/
inductive Dtype
  | float32
  | float64
  | int32
deriving DecidableEq, Repr

/-- A skim key: either a scalar matrix name or a `(base, time-period)` pair,
as built by splitting a matrix name on `'__'`. -/
inductive SkimKey
  | scalar (key1 : String)
  | composite (key1 key2 : String)
deriving DecidableEq, Repr

/-- `key1, key2` as extracted in the source:
`if isinstance(skim_key, tuple): key1, key2 = skim_key else: key1 = key2 = skim_key`. -/
def keyPair : SkimKey → String × String
  | .scalar k => (k, k)
  | .composite k1 k2 => (k1, k2)

/-- Fatal errors raised by the embedded code (Python AssertionError /
RuntimeError / AttributeError / KeyError, distinguished by site). -/
inductive LosError
  | duplicateSkim (name prevFile : String)
  | shapeMismatch (expected got : Nat × Nat)
  | offsetMapLength
  | multipleMappings (adoptedName newName : String)
  | unrecognizedZoneSystem (zs : Option Int)
  | missingSetting (name : String)
  | duplicateSkimTag (tag : String)
  | missingTazSkims
  | missingTable (name : String)
  | duplicateMazIndex
  | noneShape
  | unsupportedDtype (d : Dtype)
  | missingCacheFile (path : String)
  | cacheShapeMismatch
  | attributeError (name : String)
  | keyError (name : String)
  | setSeedAfterOpen
  | pipelineStateError
deriving DecidableEq, Repr

/-- The data `load_skim_info` reads from one omx file: its name, matrix shape,
`listMatrices()` and `listMappings()` (each mapping with its entries). -/
structure OmxFile where
  name : String
  shape : Nat × Nat
  matrices : List String
  mappings : List (String × List Int)
deriving DecidableEq, Repr

/-- The `skim_info` dict built by `load_skim_info`. -/
structure SkimInfo where
  skim_tag : String
  omx_file_names : List String
  omx_manifest : List (String × String)
  omx_shape : Option (Nat × Nat)
  num_skims : Nat
  dtype : Dtype
  offset_map_name : Option String
  offset_map : Option (List Int)
  omx_keys : List (SkimKey × String)
  key1_block_offsets : List (String × Nat)
  block_offsets : List (SkimKey × Nat)
deriving DecidableEq, Repr

/-- Mutable state threaded through the per-file loop of `load_skim_info`. -/
structure ManifestState where
  omx_shape : Option (Nat × Nat)
  offset_map_name : Option String
  offset_map : Option (List Int)
  omx_manifest : List (String × String)
deriving DecidableEq, Repr

/-- First-file shape adoption / later-file shape assertion of `load_skim_info`. -/
def procShape (st : ManifestState) (f : OmxFile) : Except LosError ManifestState :=
  match st.omx_shape with
  | none => .ok { st with omx_shape := some f.shape }
  | some sh => if sh = f.shape then .ok st else .error (.shapeMismatch sh f.shape)

/-- `for skim_name in omx_file.listMatrices(): assert skim_name not in
omx_manifest ...; omx_manifest[skim_name] = omx_file_name`. -/
def procMatrices (fileName : String) : List String → List (String × String) →
    Except LosError (List (String × String))
  | [], manifest => .ok manifest
  | n :: rest, manifest =>
    match alookup n manifest with
    | some prevFile => .error (.duplicateSkim n prevFile)
    | none => procMatrices fileName rest (manifest ++ [(n, fileName)])

/-- `for m in omx_file.listMappings(): ...` — adopt the first mapping
(asserting its length equals the row count), accept equal later mappings,
raise on a differently-valued one. -/
def procMappings (rows : Nat) : List (String × List Int) →
    Option String × Option (List Int) →
    Except LosError (Option String × Option (List Int))
  | [], om => .ok om
  | (m, entries) :: rest, om =>
    match om.2 with
    | none =>
      if entries.length = rows then procMappings rows rest (some m, some entries)
      else .error .offsetMapLength
    | some adoptedEntries =>
      if adoptedEntries = entries then procMappings rows rest om
      else .error (.multipleMappings (om.1.getD "") m)

/-- One iteration of the `for omx_file_name in omx_file_names` loop of
`load_skim_info`: shape check, matrix-manifest accumulation, mapping checks. -/
def processFile (st : ManifestState) (f : OmxFile) : Except LosError ManifestState := do
  let st1 ← procShape st f
  let manifest ← procMatrices f.name f.matrices st1.omx_manifest
  let om ← procMappings ((st1.omx_shape.getD f.shape).1) f.mappings
    (st1.offset_map_name, st1.offset_map)
  .ok { omx_shape := st1.omx_shape, offset_map_name := om.1, offset_map := om.2,
        omx_manifest := manifest }

/-- Building `omx_keys` from one manifest entry: split the name on `'__'`,
skip composite tags not in `tags_to_load` (a falsy — empty — `tags_to_load`
disables the filter, as in Python), insert the key. -/
def omxKeysStep (tags_to_load : List String) (acc : List (SkimKey × String))
    (skim_name : String) : List (SkimKey × String) :=
  match partitionName skim_name with
  | (key1, sep, key2) =>
    if tags_to_load ≠ [] ∧ sep ≠ "" ∧ key2 ∉ tags_to_load then acc
    else pyDictSet acc (if sep ≠ "" then SkimKey.composite key1 key2 else SkimKey.scalar key1)
      skim_name

/-- The `omx_keys` dict of `load_skim_info`. -/
def omxKeysOf (tags_to_load : List String) (names : List String) : List (SkimKey × String) :=
  names.foldl (omxKeysStep tags_to_load) []

/-- One iteration of the `key1_subkeys` loop:
`key2_dict = key1_subkeys.setdefault(key1, {}); key2_dict[key2] = len(key2_dict)`. -/
def subStep (acc : List (String × List (String × Nat))) (p : String × String) :
    List (String × List (String × Nat)) :=
  match alookup p.1 acc with
  | some d => acc.map (fun q => if q.1 = p.1 then (q.1, pyDictSet d p.2 d.length) else q)
  | none => acc ++ [(p.1, pyDictSet [] p.2 0)]

/-- The `key1_subkeys` dict of `load_skim_info`. -/
def key1SubkeysOf (keys : List SkimKey) : List (String × List (String × Nat)) :=
  keys.foldl (fun acc sk => subStep acc (keyPair sk)) []

/-- The `key1_block_offsets` loop: assign each base name a starting offset by
cumulative sum of subkey-block sizes in first-seen order. -/
def key1BlockOffsetsAux : List (String × List (String × Nat)) → Nat → List (String × Nat)
  | [], _ => []
  | (k1, d) :: rest, off => (k1, off) :: key1BlockOffsetsAux rest (off + d.length)

/-- `block_offsets[skim_key] = key1_block_offsets[key1] + key1_subkeys.get(key1).get(key2)`. -/
def offsetOfPair (sub : List (String × List (String × Nat))) (k1off : List (String × Nat))
    (p : String × String) : Nat :=
  (alookup p.1 k1off).getD 0 + (alookup p.2 ((alookup p.1 sub).getD [])).getD 0

/-- The `block_offsets` dict of `load_skim_info` (one entry per `omx_keys` key,
in order). -/
def blockOffsetsOf (keys : List SkimKey) : List (SkimKey × Nat) :=
  keys.map (fun sk =>
    (sk, offsetOfPair (key1SubkeysOf keys) (key1BlockOffsetsAux (key1SubkeysOf keys) 0)
      (keyPair sk)))

/-- `load_skim_info(skim_tag, omx_file_names, skim_time_periods)`: the per-file
manifest/shape/mapping pass followed by the key/offset assignment.
`tags_to_load = []` models a falsy `skim_time_periods and
skim_time_periods['labels']`. -/
def load_skim_info (skim_tag : String) (files : List OmxFile) (tags_to_load : List String) :
    Except LosError SkimInfo := do
  let st ← files.foldlM processFile ⟨none, none, none, []⟩
  let omx_keys := omxKeysOf tags_to_load (st.omx_manifest.map (·.1))
  let keys := omx_keys.map (·.1)
  .ok { skim_tag := skim_tag,
        omx_file_names := files.map (·.name),
        omx_manifest := st.omx_manifest,
        omx_shape := st.omx_shape,
        num_skims := omx_keys.length,
        dtype := .float32,
        offset_map_name := st.offset_map_name,
        offset_map := st.offset_map,
        omx_keys := omx_keys,
        key1_block_offsets := key1BlockOffsetsAux (key1SubkeysOf keys) 0,
        block_offsets := blockOffsetsOf keys }

/-- `multiply_large_numbers` (`reduce(mul, ...)`); the source always applies it
to a nonempty shape tuple, for which the `1` seed is inert. -/
def multiply_large_numbers (l : List Nat) : Nat := l.foldl (· * ·) 1

/-- `multiprocessing.RawArray` typecode chosen by `allocate_skim_buffer`. -/
inductive Typecode
  | d
  | f
deriving DecidableEq, Repr

/-- The buffer `allocate_skim_buffer` returns: its element count, and the
RawArray typecode when shared (a plain `np.zeros` otherwise). -/
structure SkimBuffer where
  size : Nat
  typecode : Option Typecode
deriving DecidableEq, Repr

/-- `allocate_skim_buffer(skim_info, shared)`; a `None` shape (no source file
was enumerated) would fail the size multiplication in Python. -/
def allocate_skim_buffer (si : SkimInfo) (shared : Bool) : Except LosError SkimBuffer := do
  let sh ← match si.omx_shape with
    | none => .error .noneShape
    | some sh => .ok sh
  let buffer_size := multiply_large_numbers [sh.1, sh.2] * si.num_skims
  if shared then
    match si.dtype with
    | .float64 => .ok ⟨buffer_size, some .d⟩
    | .float32 => .ok ⟨buffer_size, some .f⟩
    | d => .error (.unsupportedDtype d)
  else
    .ok ⟨buffer_size, none⟩

/-- An in-memory skim buffer view: its numpy shape and flat contents.
Elements are abstracted to `Int`; the cache round trip copies them verbatim. -/
structure SkimArray where
  shape : List Nat
  data : List Int
deriving DecidableEq, Repr

/-- An on-disk `np.memmap` cache artifact: the element type it was written
with and its flat contents. -/
structure CacheFile where
  dtype : Dtype
  data : List Int
deriving DecidableEq, Repr

def build_skim_cache_file_name (skim_tag : String) : String :=
  "cached_" ++ skim_tag ++ ".mmap"

/-- `os.path.join` for our purposes. -/
def pathJoin (dir name : String) : String := dir ++ "/" ++ name

def prodList (l : List Nat) : Nat := l.foldl (· * ·) 1

/-- `write_skim_cache(skim_info, skim_data)`: create/overwrite the per-tag
cache file under the cache directory and copy the buffer into it
(`np.memmap(..., mode='w+'); data[::] = skim_data`). -/
def write_skim_cache (skim_cache_dir : String) (si : SkimInfo) (skim_data : SkimArray)
    (fs : List (String × CacheFile)) : List (String × CacheFile) :=
  pyDictSet fs (pathJoin skim_cache_dir (build_skim_cache_file_name si.skim_tag))
    ⟨si.dtype, skim_data.data⟩

/-- `read_skim_cache(skim_info, skim_data)`: assert the cache file exists, map
it with the buffer's shape and the catalog dtype (`np.memmap` demands the file
size match `prod(shape) * itemsize`; we model the size check as element count
plus written-dtype agreement), and copy it into the buffer. -/
def read_skim_cache (skim_cache_dir : String) (si : SkimInfo) (skim_data : SkimArray)
    (fs : List (String × CacheFile)) : Except LosError SkimArray :=
  let path := pathJoin skim_cache_dir (build_skim_cache_file_name si.skim_tag)
  match alookup path fs with
  | none => .error (.missingCacheFile path)
  | some cf =>
    if cf.dtype = si.dtype ∧ cf.data.length = prodList skim_data.shape then
      .ok { shape := skim_data.shape, data := cf.data }
    else .error .cacheShapeMismatch

/-- One `maz_to_maz` source csv: its attribute column names and its rows
`(OMAZ, DMAZ, attribute values aligned with cols)`. -/
structure MazToMazFile where
  cols : List String
  rows : List (Nat × Nat × List Int)
deriving DecidableEq, Repr

/-- `df.MAZ.max()` (pandas column max; the source table is nonempty in use). -/
def listMax (l : List Nat) : Nat := l.foldl Nat.max 0

/-- A file's rows with the synthetic index `i = OMAZ * cardinality + DMAZ`. -/
def fileIndexed (card : Nat) (f : MazToMazFile) : List (Nat × List Int) :=
  f.rows.map (fun r => (r.1 * card + r.2.1, r.2.2))

/-- A dataframe modelled column-wise: each named column maps synthetic index
to value (dropping `OMAZ`/`DMAZ` as the source does). -/
def fileColumns (card : Nat) (f : MazToMazFile) : List (String × List (Nat × Int)) :=
  (List.enum f.cols).map (fun ci =>
    (ci.2, (fileIndexed card f).filterMap (fun row => (row.2.get? ci.1).map (fun v => (row.1, v)))))

/-- `Network_LOS.load_all_tables` (two-zone part): cardinality from
`maz_to_taz.MAZ.max() + 1`, per-file synthetic index with
`verify_integrity=True`, `pd.concat(..., axis=1)` modelled as column-list
concatenation over the shared synthetic index. -/
def load_all_tables (maz_to_taz_MAZ : List Nat) (maz_to_maz_files : List MazToMazFile) :
    Except LosError (Nat × List (String × List (Nat × Int))) :=
  if maz_to_maz_files.all
      (fun f => decide ((fileIndexed (listMax maz_to_taz_MAZ + 1) f).map (·.1)).Nodup) then
    .ok (listMax maz_to_taz_MAZ + 1,
      maz_to_maz_files.flatMap (fileColumns (listMax maz_to_taz_MAZ + 1)))
  else .error .duplicateMazIndex

/-- Modelled from the spec: `util.quick_loc_df` is not under `src/`. The spec
(§4.5) describes a vectorized positional lookup of each synthetic index
against the table, returning values aligned to the input order; `none` stands
for the NaN an absent row yields. -/
def quick_loc_df (locs : List Nat) (df : List (String × List (Nat × Int)))
    (attrName : String) : List (Option Int) :=
  locs.map (fun i => (alookup attrName df).bind (fun col => alookup i col))

/-- `Network_LOS.get_mazpairs(omaz, dmaz, attribute)`:
`i = omaz * cardinality + dmaz; quick_loc_df(i, maz_to_maz_df, attribute)`. -/
def get_mazpairs (maz_to_maz_cardinality : Nat)
    (maz_to_maz_df : List (String × List (Nat × Int)))
    (omaz dmaz : List Nat) (attrName : String) : List (Option Int) :=
  quick_loc_df ((omaz.zip dmaz).map (fun p => p.1 * maz_to_maz_cardinality + p.2))
    maz_to_maz_df attrName

/-- The `network_los` settings block consumed by `read_los_settings`. -/
structure NetworkLosSettings where
  zone_system : Option Int
  skims : Option (List (String × List OmxFile))
  tables : List (String × List String)

/-- The settings file surface `Network_LOS` reads. -/
structure LosSettings where
  network_los : Option NetworkLosSettings
  skim_time_periods : List String

def ONE_ZONE : Int := 1
def TWO_ZONE : Int := 2
def THREE_ZONE : Int := 3

def REQUIRED_TWO_ZONE_TABLES : List String := ["maz_to_maz", "maz_to_taz"]

/-- The state `read_los_settings` leaves on the façade. -/
structure LosReadResult where
  zone_system : Option Int
  skim_info : List (String × SkimInfo)
  table_info : List (String × List String)

/-- The `for skim_tag, file_names in skim_file_names.items()` loop of
`read_los_settings`, including `Network_LOS.load_skim_info`'s
`assert skim_tag not in self.skim_info`. -/
def loadSkimTags (tp : List String) : List (String × List OmxFile) →
    List (String × SkimInfo) → Except LosError (List (String × SkimInfo))
  | [], acc => .ok acc
  | (tag, fs) :: rest, acc =>
    if (alookup tag acc).isSome then .error (.duplicateSkimTag tag)
    else do
      let si ← load_skim_info tag fs tp
      loadSkimTags tp rest (acc ++ [(tag, si)])

/-- `Network_LOS.read_los_settings`: require the `network_los` block, assert
`zone_system in [ONE_ZONE, TWO_ZONE]`, load skim info per tag, assert a `taz`
tag, and for two/three-zone check the required table entries. -/
def read_los_settings (s : LosSettings) : Except LosError LosReadResult := do
  let los ← match s.network_los with
    | none => .error (.missingSetting "network_los")
    | some l => .ok l
  let zs := los.zone_system
  if zs = some ONE_ZONE ∨ zs = some TWO_ZONE then do
    let skimFiles ← match los.skims with
      | none => .error (.missingSetting "skims")
      | some sk => .ok sk
    let skim_info ← loadSkimTags s.skim_time_periods skimFiles []
    if (alookup "taz" skim_info).isSome then
      if zs = some TWO_ZONE ∨ zs = some THREE_ZONE then
        match REQUIRED_TWO_ZONE_TABLES.find? (fun t => (alookup t los.tables).isNone) with
        | some t => .error (.missingTable t)
        | none => .ok ⟨zs, skim_info, los.tables⟩
      else .ok ⟨zs, skim_info, []⟩
    else .error .missingTazSkims
  else .error (.unrecognizedZoneSystem zs)

/-- Modelled from the spec and the repository's test: `pipeline.py` is not
under `src/`. Observable pipeline state per spec §4.6 and
`test_pipeline.test_rng_access`: whether the checkpoint store is open, the
steps checkpointed so far, and the RNG base seed. The test shows the seed
setter raising once `open_pipeline()` has been called and before any step has
run, so the setter's guard is the open flag. -/
structure Pipeline where
  is_open : Bool
  steps_run : List String
  base_seed : Int
deriving DecidableEq, Repr

def initial_pipeline : Pipeline := ⟨false, [], 0⟩

/-- Modelled from the spec: `open_pipeline` fails if the store is already
open. -/
def open_pipeline (p : Pipeline) : Except LosError Pipeline :=
  if p.is_open then .error .pipelineStateError else .ok { p with is_open := true }

/-- Modelled from the spec: a double close is a tolerated no-op. -/
def close_pipeline (p : Pipeline) : Pipeline := { p with is_open := false }

/-- Modelled from the spec: `run_model` needs an open store, refuses an
already-checkpointed step name, then checkpoints the step. -/
def run_model (p : Pipeline) (step : String) : Except LosError Pipeline :=
  if p.is_open = false then .error .pipelineStateError
  else if step ∈ p.steps_run then .error .pipelineStateError
  else .ok { p with steps_run := p.steps_run ++ [step] }

/-- Modelled from the spec and the test: `set_rn_generator_base_seed` raises
`RuntimeError("call set_rn_generator_base_seed before the first step")` when
the pipeline is open (the test triggers it right after `open_pipeline()`,
before any step), and records the seed otherwise. -/
def set_rn_generator_base_seed (p : Pipeline) (seed : Int) : Except LosError Pipeline :=
  if p.is_open then .error .setSeedAfterOpen else .ok { p with base_seed := seed }

/-- The pipeline operations a caller can issue, for reachability statements. -/
inductive PipelineOp
  | openOp
  | closeOp
  | runOp (step : String)
  | seedOp (seed : Int)
deriving DecidableEq, Repr

/-- Apply one pipeline operation, keeping the prior state when the operation
raises (the caller sees the fatal error; the store is unchanged). -/
def applyOp (p : Pipeline) : PipelineOp → Pipeline
  | .openOp => (open_pipeline p).toOption.getD p
  | .closeOp => close_pipeline p
  | .runOp step => (run_model p step).toOption.getD p
  | .seedOp seed => (set_rn_generator_base_seed p seed).toOption.getD p

def applyOps (p : Pipeline) (ops : List PipelineOp) : Pipeline :=
  ops.foldl applyOp p

/-- The public `Network_LOS` methods, for the attribute-assignment model. -/
inductive LosMethod
  | read_los_settings_m
  | load_all_tables_m
  | load_skim_info_m
  | create_skim_dict_m
  | load_all_skims_m
  | load_shared_data_m
  | allocate_shared_skim_buffers_m
  | get_skim_dict_m
  | get_mazpairs_m
deriving DecidableEq, Repr

/-- Attribute names `Network_LOS.__init__` assigns (`self.X = ...`),
including those assigned by the `read_los_settings` call it makes. -/
def initAttrs : List String :=
  ["zone_system", "skim_time_periods", "skim_info", "skim_dicts", "skim_buffers",
   "table_info", "maz_to_taz_df", "maz_to_maz_df", "maz_to_maz_cardinality"]

/-- Attribute names each public method assigns; item assignment into an
existing dict attribute (`self.skim_dicts[tag] = ...`) creates no attribute. -/
def methodAttrs : LosMethod → List String
  | .read_los_settings_m => ["zone_system", "table_info", "skim_time_periods"]
  | .load_all_tables_m => ["maz_to_taz_df", "maz_to_maz_cardinality", "maz_to_maz_df"]
  | _ => []

/-- Instance attribute names present after `__init__` and any sequence of
public method calls. -/
def attrsAfter (ms : List LosMethod) : List String :=
  ms.foldl (fun acc m => acc ++ methodAttrs m) initAttrs

/-- `Network_LOS.get_table`: `assert table_name in self.tables` first reads
the `tables` attribute — reading a never-assigned attribute raises
`AttributeError`; `tables_val` is what the membership test would consult if
the attribute existed. -/
def get_table (attrs : List String) (tables_val : List String) (table_name : String) :
    Except LosError String :=
  if "tables" ∈ attrs then
    if table_name ∈ tables_val then .ok table_name
    else .error (.keyError table_name)
  else .error (.attributeError "tables")

/-- All matrix names contributed by a file list, in enumeration order. -/
def allMatrixNames (files : List OmxFile) : List String := files.flatMap (·.matrices)

/-- All offset mappings contributed by a file list, in enumeration order. -/
def allMappings (files : List OmxFile) : List (String × List Int) :=
  files.flatMap (·.mappings)

/-- Is this the "duplicate skim found" fatal error? -/
def isDupErrE : LosError → Bool
  | .duplicateSkim _ _ => true
  | _ => false

/-- Is this the "unrecognized zone_system" fatal error? -/
def isZoneErrE : LosError → Bool
  | .unrecognizedZoneSystem _ => true
  | _ => false

/-- Does a result carry the "duplicate skim found" fatal error? -/
def isDupErr {α : Type} : Except LosError α → Bool
  | .error e => isDupErrE e
  | .ok _ => false

/-- Does a result carry the "unrecognized zone_system" fatal error? -/
def isZoneErr {α : Type} : Except LosError α → Bool
  | .error e => isZoneErrE e
  | .ok _ => false

/-- Spec-side helper: the accumulator step keeping first occurrences. -/
def seenStep {α : Type} [DecidableEq α] (acc : List α) (a : α) : List α :=
  if a ∈ acc then acc else acc ++ [a]

/-- Spec-side helper: a list's elements in first-seen order, without repeats. -/
def firstSeen {α : Type} [DecidableEq α] (l : List α) : List α :=
  l.foldl seenStep []

/-- Spec-side helper: pair each element with its position, starting at `n`. -/
def indexedFrom {α : Type} : List α → Nat → List (α × Nat)
  | [], _ => []
  | a :: rest, n => (a, n) :: indexedFrom rest (n + 1)

/-- Spec-side helper: the `key2` components of the pairs grouped under `k1`,
in order. -/
def key2sOf (ps : List (String × String)) (k1 : String) : List String :=
  (ps.filter (fun q => q.1 = k1)).map (·.2)

/-- The `key1_subkeys` fold over the extracted `(key1, key2)` pairs. -/
def subFold (ps : List (String × String)) : List (String × List (String × Nat)) :=
  ps.foldl subStep []

/-- Spec-side helper: cumulative starting offsets over (group, size) pairs —
the shape of `key1_block_offsets` with subkey dicts replaced by their sizes. -/
def startsAux : List (String × Nat) → Nat → List (String × Nat)
  | [], _ => []
  | (k, len) :: rest, off => (k, off) :: startsAux rest (off + len)

/-- Spec-side helper: the skim key a matrix name parses to. -/
def keyOf (skim_name : String) : SkimKey :=
  match partitionName skim_name with
  | (key1, sep, key2) =>
    if sep ≠ "" then SkimKey.composite key1 key2 else SkimKey.scalar key1

/-- Spec-side helper: is a matrix name retained under the configured period
labels? Mirrors the `continue` condition of the `omx_keys` loop. -/
def retainedB (tags_to_load : List String) (skim_name : String) : Bool :=
  match partitionName skim_name with
  | (_, sep, key2) =>
    if tags_to_load ≠ [] ∧ sep ≠ "" ∧ key2 ∉ tags_to_load then false else true

/-- Spec-side: every mapping in sight agrees with the adopted one — or, when
none is adopted yet, with the first to come, whose length must match the row
count. -/
def mapCompat (rows : Nat) (cur : Option (List Int)) (ms : List (String × List Int)) : Prop :=
  match cur with
  | some e => ∀ m ∈ ms, m.2 = e
  | none => ∀ m0 ∈ ms.head?, m0.2.length = rows ∧ ∀ m ∈ ms, m.2 = m0.2

/-- Spec-side: the (offset_map_name, offset_map) state after processing `ms`
from state `(cn, cur)` when no mapping check fails. -/
def mapResult (cn : Option String) (cur : Option (List Int))
    (ms : List (String × List Int)) : Option String × Option (List Int) :=
  match cur with
  | some e => (cn, some e)
  | none =>
    match ms with
    | [] => (cn, none)
    | m0 :: _ => (some m0.1, some m0.2)

/-- Is this the "multiple different mappings" fatal error? -/
def isMultiErrE : LosError → Bool
  | .multipleMappings _ _ => true
  | _ => false

/-- Does a result carry the "multiple different mappings" fatal error? -/
def isMultiErr {α : Type} : Except LosError α → Bool
  | .error e => isMultiErrE e
  | .ok _ => false

theorem alookup_cons {α β : Type} [DecidableEq α] (k a : α) (b : β) (rest : List (α × β)) :
    alookup k ((a, b) :: rest) = if a = k then some b else alookup k rest := rfl

theorem alookup_map_overwrite {α β : Type} [DecidableEq α] (d : List (α × β)) (k : α) (v : β)
    (h : (alookup k d).isSome) :
    alookup k (d.map (fun q => if q.1 = k then (k, v) else q)) = some v := by
  induction d with
  | nil => simp [alookup] at h
  | cons q rest ih =>
    obtain ⟨a, b⟩ := q
    by_cases hq : a = k
    · simp only [List.map_cons, if_pos hq, alookup_cons, if_pos rfl]
      simp
    · rw [alookup_cons, if_neg hq] at h
      simpa only [List.map_cons, if_neg hq, alookup_cons, if_neg hq] using ih h

theorem alookup_append_left_none {α β : Type} [DecidableEq α] (k : α) (l₁ l₂ : List (α × β))
    (h : alookup k l₁ = none) : alookup k (l₁ ++ l₂) = alookup k l₂ := by
  induction l₁ with
  | nil => rfl
  | cons q rest ih =>
    obtain ⟨a, b⟩ := q
    by_cases hq : a = k
    · rw [alookup_cons, if_pos hq] at h; exact absurd h (by simp)
    · rw [alookup_cons, if_neg hq] at h
      simpa only [List.cons_append, alookup_cons, if_neg hq] using ih h

theorem alookup_pyDictSet_self {α β : Type} [DecidableEq α] (d : List (α × β)) (k : α) (v : β) :
    alookup k (pyDictSet d k v) = some v := by
  unfold pyDictSet
  split
  · exact alookup_map_overwrite d k v (by assumption)
  · rename_i h
    have hnone : alookup k d = none := by
      cases hd : alookup k d with
      | none => rfl
      | some w => exact absurd (by simp [hd]) h
    rw [alookup_append_left_none k d _ hnone, alookup_cons, if_pos rfl]

/-- C3: for every skim_info and buffer contents of matching shape,
`write_skim_cache` followed by `read_skim_cache` into a same-shaped buffer
reproduces the written data element for element. -/
theorem c3_cache_round_trip (dir : String) (si : SkimInfo) (arr arr2 : SkimArray)
    (fs : List (String × CacheFile))
    (hsh : arr2.shape = arr.shape)
    (hlen : arr.data.length = prodList arr.shape) :
    read_skim_cache dir si arr2 (write_skim_cache dir si arr fs) =
      .ok { shape := arr.shape, data := arr.data } := by
  unfold read_skim_cache write_skim_cache
  simp only [alookup_pyDictSet_self]
  simp [hsh, hlen]

/-- C3 witness: a concrete 2×2 float32 round trip through an empty cache
directory. -/
theorem c3_cache_round_trip_witness :
    read_skim_cache "out" ⟨"taz", [], [], some (2, 2), 1, .float32, none, none, [], [], []⟩
      ⟨[2, 2], [0, 0, 0, 0]⟩
      (write_skim_cache "out" ⟨"taz", [], [], some (2, 2), 1, .float32, none, none, [], [], []⟩
        ⟨[2, 2], [5, 6, 7, 8]⟩ []) = .ok ⟨[2, 2], [5, 6, 7, 8]⟩ :=
  c3_cache_round_trip "out" _ ⟨[2, 2], [5, 6, 7, 8]⟩ ⟨[2, 2], [0, 0, 0, 0]⟩ [] rfl rfl

theorem no_tables_attr (ms : List LosMethod) : "tables" ∉ attrsAfter ms := by
  have h : ∀ (ms : List LosMethod) (acc : List String), "tables" ∉ acc →
      "tables" ∉ ms.foldl (fun acc m => acc ++ methodAttrs m) acc := by
    intro ms
    induction ms with
    | nil => intro acc h; exact h
    | cons m rest ih =>
      intro acc hacc
      apply ih
      intro hmem
      rcases List.mem_append.mp hmem with h1 | h2
      · exact hacc h1
      · cases m <;> exact absurd h2 (by decide)
  exact h ms initAttrs (by decide)

/-- C9: `Network_LOS.get_table` always raises — no constructor or method ever
assigns the `tables` attribute its assert consults. -/
theorem c9_get_table_always_errors (ms : List LosMethod) (tables_val : List String)
    (table_name : String) :
    get_table (attrsAfter ms) tables_val table_name = .error (.attributeError "tables") := by
  unfold get_table
  rw [if_neg (no_tables_attr ms)]

theorem load_skim_info_ok_inv (tag : String) (files : List OmxFile) (tags : List String)
    (info : SkimInfo) (h : load_skim_info tag files tags = .ok info) :
    ∃ st, files.foldlM processFile ⟨none, none, none, []⟩ = .ok st ∧
      info = { skim_tag := tag, omx_file_names := files.map (·.name),
               omx_manifest := st.omx_manifest, omx_shape := st.omx_shape,
               num_skims := (omxKeysOf tags (st.omx_manifest.map (·.1))).length,
               dtype := .float32, offset_map_name := st.offset_map_name,
               offset_map := st.offset_map,
               omx_keys := omxKeysOf tags (st.omx_manifest.map (·.1)),
               key1_block_offsets :=
                 key1BlockOffsetsAux
                   (key1SubkeysOf ((omxKeysOf tags (st.omx_manifest.map (·.1))).map (·.1))) 0,
               block_offsets :=
                 blockOffsetsOf ((omxKeysOf tags (st.omx_manifest.map (·.1))).map (·.1)) } := by
  unfold load_skim_info at h
  cases hst : files.foldlM processFile ⟨none, none, none, []⟩ with
  | error e => rw [hst] at h; exact absurd h (by simp [Bind.bind, Except.bind])
  | ok st =>
    rw [hst] at h
    refine ⟨st, rfl, ?_⟩
    have h2 := h
    simp only [Bind.bind, Except.bind] at h2
    exact (Except.ok.inj h2).symm

/-- C10: every catalog `load_skim_info` builds has dtype float32, so shared
buffer allocation always takes the `'f'` typecode branch (never `'d'`, never
the unsupported-dtype error). -/
theorem c10_dtype_always_float32 (tag : String) (files : List OmxFile) (tags : List String)
    (info : SkimInfo) (h : load_skim_info tag files tags = .ok info) :
    info.dtype = .float32 ∧
      ∀ sh, info.omx_shape = some sh →
        allocate_skim_buffer info true =
          .ok ⟨multiply_large_numbers [sh.1, sh.2] * info.num_skims, some .f⟩ := by
  obtain ⟨st, hst, hinfo⟩ := load_skim_info_ok_inv tag files tags info h
  subst hinfo
  refine ⟨rfl, ?_⟩
  intro sh hsh
  unfold allocate_skim_buffer
  simp only at hsh
  rw [hsh]
  rfl

/-- C10 witness: a one-file catalog allocates a shared float32 buffer. -/
theorem c10_dtype_always_float32_witness :
    SkimInfo.dtype
      { skim_tag := "taz", omx_file_names := ["f1"], omx_manifest := [("DIST", "f1")],
        omx_shape := some (2, 2), num_skims := 1, dtype := .float32,
        offset_map_name := none, offset_map := none,
        omx_keys := [(.scalar "DIST", "DIST")],
        key1_block_offsets := [("DIST", 0)],
        block_offsets := [(.scalar "DIST", 0)] } = Dtype.float32 ∧
    allocate_skim_buffer
      { skim_tag := "taz", omx_file_names := ["f1"], omx_manifest := [("DIST", "f1")],
        omx_shape := some (2, 2), num_skims := 1, dtype := .float32,
        offset_map_name := none, offset_map := none,
        omx_keys := [(.scalar "DIST", "DIST")],
        key1_block_offsets := [("DIST", 0)],
        block_offsets := [(.scalar "DIST", 0)] } true = .ok ⟨4, some .f⟩ := by
  have h := c10_dtype_always_float32 "taz" [⟨"f1", (2, 2), ["DIST"], []⟩] []
    { skim_tag := "taz", omx_file_names := ["f1"], omx_manifest := [("DIST", "f1")],
      omx_shape := some (2, 2), num_skims := 1, dtype := .float32,
      offset_map_name := none, offset_map := none,
      omx_keys := [(.scalar "DIST", "DIST")],
      key1_block_offsets := [("DIST", 0)],
      block_offsets := [(.scalar "DIST", 0)] } (by rfl)
  exact ⟨h.1, h.2 (2, 2) rfl⟩

/-- C8 counterexample: exactly the scenario `test_rng_access` runs — set the
seed, open the pipeline, set it again — fails with the fatal seed error even
though no model step has run, refuting "fails iff the first step has run". -/
theorem c8_counterexample :
    ((set_rn_generator_base_seed initial_pipeline 0).bind
      (fun p => (open_pipeline p).bind
        (fun p2 => set_rn_generator_base_seed p2 0))) = .error .setSeedAfterOpen ∧
    ((set_rn_generator_base_seed initial_pipeline 0).bind
      (fun p => open_pipeline p)).map (·.steps_run) = .ok [] := by
  exact ⟨rfl, rfl⟩

/-- C8 (amended): the seed setter fails exactly when the pipeline has been
opened — not when the first step has run, and not when the setter was already
called: before opening, a second call still succeeds. -/
theorem c8_amended (p : Pipeline) (seed seed2 : Int) :
    ((∃ q, set_rn_generator_base_seed p seed = .ok q) ↔ p.is_open = false) ∧
    (p.is_open = false →
      (set_rn_generator_base_seed p seed).bind (fun q => set_rn_generator_base_seed q seed2)
        = .ok { p with base_seed := seed2 }) ∧
    (p.is_open = true → set_rn_generator_base_seed p seed = .error .setSeedAfterOpen) := by
  by_cases hp : p.is_open = true
  · refine ⟨⟨?_, ?_⟩, ?_, ?_⟩
    · rintro ⟨q, hq⟩
      simp [set_rn_generator_base_seed, hp] at hq
    · intro h; rw [hp] at h; cases h
    · intro h; rw [h] at hp; cases hp
    · intro _; simp [set_rn_generator_base_seed, hp]
  · have hp2 : p.is_open = false := by simpa using hp
    refine ⟨⟨fun _ => hp2, ?_⟩, ?_, ?_⟩
    · intro _
      exact ⟨{ p with base_seed := seed }, by simp [set_rn_generator_base_seed, hp2]⟩
    · intro _
      simp [set_rn_generator_base_seed, hp2, Bind.bind, Except.bind]
    · intro h; rw [h] at hp2; cases hp2

/-- C8 witness: on a fresh (closed) pipeline two consecutive seed calls
succeed, and once opened the setter fails. -/
theorem c8_amended_witness :
    ((∃ q, set_rn_generator_base_seed initial_pipeline 7 = .ok q) ↔
      initial_pipeline.is_open = false) ∧
    (initial_pipeline.is_open = false →
      (set_rn_generator_base_seed initial_pipeline 7).bind
        (fun q => set_rn_generator_base_seed q 9) =
          .ok { initial_pipeline with base_seed := 9 }) ∧
    (initial_pipeline.is_open = true →
      set_rn_generator_base_seed initial_pipeline 7 = .error .setSeedAfterOpen) :=
  c8_amended initial_pipeline 7 9

/-- C2: `get_mazpairs` agrees position by position with a direct lookup of the
loaded `maz_to_maz` table at the synthetic index `o * cardinality + d`, where
the cardinality is `max(MAZ) + 1` from the `maz_to_taz` table. -/
theorem c2_get_mazpairs_consistent (mazTaz : List Nat) (files : List MazToMazFile)
    (card : Nat) (table : List (String × List (Nat × Int)))
    (omaz dmaz : List Nat) (attrName : String) (k o d : Nat) (v : Int)
    (col : List (Nat × Int))
    (h : load_all_tables mazTaz files = .ok (card, table))
    (ho : omaz[k]? = some o) (hd : dmaz[k]? = some d)
    (hcol : alookup attrName table = some col)
    (hrow : alookup (o * card + d) col = some v) :
    (get_mazpairs card table omaz dmaz attrName)[k]? = some (some v) ∧
    card = listMax mazTaz + 1 := by
  have hcard : card = listMax mazTaz + 1 := by
    unfold load_all_tables at h
    split at h
    · exact (Prod.mk.inj (Except.ok.inj h)).1.symm
    · cases h
  refine ⟨?_, hcard⟩
  unfold get_mazpairs quick_loc_df
  rw [List.getElem?_map, List.getElem?_map,
    (List.getElem?_zip_eq_some (z := (o, d))).mpr ⟨ho, hd⟩]
  simp [hcol, hrow]

/-- C2 witness: the spec's example — MAZ values `[0,1,2]`, cardinality 3, the
row OMAZ=1, DMAZ=2 stored at synthetic index 5, looked up per position. -/
theorem c2_get_mazpairs_consistent_witness :
    (get_mazpairs 3 [("attr", [(5, 42)])] [1] [2] "attr")[0]? = some (some 42) ∧
    3 = listMax [0, 1, 2] + 1 :=
  c2_get_mazpairs_consistent [0, 1, 2] [⟨["attr"], [(1, 2, [42])]⟩] 3 [("attr", [(5, 42)])]
    [1] [2] "attr" 0 1 2 42 [(5, 42)] (by rfl) rfl rfl rfl rfl

theorem isZoneErr_bind {α β : Type} (x : Except LosError α) (g : α → Except LosError β)
    (hx : isZoneErr x = false) (hg : ∀ a, isZoneErr (g a) = false) :
    isZoneErr (x.bind g) = false := by
  cases x with
  | error e => exact hx
  | ok a => exact hg a

theorem procShape_not_zone (st : ManifestState) (f : OmxFile) :
    isZoneErr (procShape st f) = false := by
  unfold procShape
  split
  · rfl
  · split <;> rfl

theorem procMatrices_not_zone (fn : String) (ns : List String)
    (man : List (String × String)) : isZoneErr (procMatrices fn ns man) = false := by
  induction ns generalizing man with
  | nil => rfl
  | cons n rest ih =>
    unfold procMatrices
    cases halo : alookup n man with
    | some p => simp [halo, isZoneErr, isZoneErrE]
    | none => simpa [halo] using ih (man ++ [(n, fn)])

theorem procMappings_not_zone (rows : Nat) (ms : List (String × List Int))
    (om : Option String × Option (List Int)) :
    isZoneErr (procMappings rows ms om) = false := by
  induction ms generalizing om with
  | nil => rfl
  | cons m rest ih =>
    obtain ⟨mn, entries⟩ := m
    obtain ⟨an, ad⟩ := om
    unfold procMappings
    cases ad with
    | none =>
      simp only
      split
      · exact ih _
      · rfl
    | some ae =>
      simp only
      split
      · exact ih _
      · rfl

theorem processFile_not_zone (st : ManifestState) (f : OmxFile) :
    isZoneErr (processFile st f) = false := by
  unfold processFile
  exact isZoneErr_bind _ _ (procShape_not_zone st f) (fun st1 =>
    isZoneErr_bind _ _ (procMatrices_not_zone _ _ _) (fun man =>
      isZoneErr_bind _ _ (procMappings_not_zone _ _ _) (fun om => rfl)))

theorem foldlM_processFile_not_zone (files : List OmxFile) (st : ManifestState) :
    isZoneErr (files.foldlM processFile st) = false := by
  induction files generalizing st with
  | nil => rfl
  | cons f rest ih =>
    rw [List.foldlM_cons]
    exact isZoneErr_bind _ _ (processFile_not_zone st f) (fun st2 => ih st2)

theorem load_skim_info_not_zone (tag : String) (files : List OmxFile) (tags : List String) :
    isZoneErr (load_skim_info tag files tags) = false := by
  unfold load_skim_info
  exact isZoneErr_bind _ _ (foldlM_processFile_not_zone files _) (fun st => rfl)

theorem loadSkimTags_not_zone (tp : List String) (l : List (String × List OmxFile))
    (acc : List (String × SkimInfo)) : isZoneErr (loadSkimTags tp l acc) = false := by
  induction l generalizing acc with
  | nil => rfl
  | cons t rest ih =>
    obtain ⟨tag, fs⟩ := t
    unfold loadSkimTags
    split
    · rfl
    · exact isZoneErr_bind _ _ (load_skim_info_not_zone _ _ _) (fun si => ih _)

/-- C5 counterexample: with `zone_system = 3` (THREE_ZONE) and otherwise valid
settings, `read_los_settings` fails its zone-system validation
(`assert self.zone_system in [ONE_ZONE, TWO_ZONE]`), refuting "accepts every
value in {1, 2, 3}". -/
theorem c5_counterexample :
    read_los_settings ⟨some ⟨some 3, some [("taz", [⟨"f1", (2, 2), ["DIST"], []⟩])],
      [("maz_to_maz", ["m1"]), ("maz_to_taz", ["m2"])]⟩, []⟩ =
      .error (.unrecognizedZoneSystem (some 3)) := rfl

/-- C5 (amended): the zone-system validation of `read_los_settings` accepts
exactly `zone_system ∈ {1, 2}`: any other value — including THREE_ZONE = 3 —
fails with the unrecognized-zone-system fatal error, and for 1 or 2 that
error never occurs. -/
theorem c5_amended (s : LosSettings) (los : NetworkLosSettings)
    (hs : s.network_los = some los) :
    (¬ (los.zone_system = some 1 ∨ los.zone_system = some 2) →
      read_los_settings s = .error (.unrecognizedZoneSystem los.zone_system)) ∧
    ((los.zone_system = some 1 ∨ los.zone_system = some 2) →
      isZoneErr (read_los_settings s) = false) := by
  constructor
  · intro hzs
    unfold read_los_settings
    rw [hs]
    simp only [Bind.bind, Except.bind, ONE_ZONE, TWO_ZONE]
    rw [if_neg hzs]
  · intro hzs
    unfold read_los_settings
    rw [hs]
    simp only [Bind.bind, Except.bind, ONE_ZONE, TWO_ZONE]
    rw [if_pos hzs]
    cases hsk : los.skims with
    | none => rfl
    | some sk =>
      apply isZoneErr_bind _ _ (loadSkimTags_not_zone _ _ _)
      intro si_list
      split
      · split
        · split <;> rfl
        · rfl
      · rfl

/-- C5 witness: a valid TWO_ZONE settings file passes the zone-system
validation without the unrecognized-zone-system error. -/
theorem c5_amended_witness :
    isZoneErr (read_los_settings ⟨some ⟨some 2, some [("taz", [⟨"f1", (2, 2), ["DIST"], []⟩])],
      [("maz_to_maz", ["m1"]), ("maz_to_taz", ["m2"])]⟩, []⟩) = false :=
  (c5_amended _ ⟨some 2, some [("taz", [⟨"f1", (2, 2), ["DIST"], []⟩])],
      [("maz_to_maz", ["m1"]), ("maz_to_taz", ["m2"])]⟩ rfl).2 (Or.inr rfl)

theorem firstSeen_append_one {α : Type} [DecidableEq α] (l : List α) (a : α) :
    firstSeen (l ++ [a]) = seenStep (firstSeen l) a := by
  simp [firstSeen, List.foldl_append]

theorem mem_firstSeen {α : Type} [DecidableEq α] (a : α) (l : List α) :
    a ∈ firstSeen l ↔ a ∈ l := by
  induction l using List.reverseRecOn with
  | nil => simp [firstSeen]
  | append_singleton l b ih =>
    rw [firstSeen_append_one]
    unfold seenStep
    by_cases hb : b ∈ firstSeen l
    · rw [if_pos hb]
      simp only [List.mem_append, List.mem_singleton, ih]
      constructor
      · exact fun h => Or.inl h
      · rintro (h | rfl)
        · exact h
        · exact ih.mp hb
    · rw [if_neg hb]
      simp [ih]

theorem nodup_firstSeen {α : Type} [DecidableEq α] (l : List α) : (firstSeen l).Nodup := by
  induction l using List.reverseRecOn with
  | nil => simp [firstSeen]
  | append_singleton l b ih =>
    rw [firstSeen_append_one]
    unfold seenStep
    by_cases hb : b ∈ firstSeen l
    · rwa [if_pos hb]
    · rw [if_neg hb]
      simpa [List.nodup_append] using ⟨ih, fun h => hb h⟩

theorem indexedFrom_append {α : Type} (l : List α) (a : α) (n : Nat) :
    indexedFrom (l ++ [a]) n = indexedFrom l n ++ [(a, n + l.length)] := by
  induction l generalizing n with
  | nil => simp [indexedFrom]
  | cons x rest ih =>
    have harith : n + 1 + rest.length = n + (x :: rest).length := by
      rw [List.length_cons]
      omega
    rw [List.cons_append,
      show indexedFrom (x :: (rest ++ [a])) n = (x, n) :: indexedFrom (rest ++ [a]) (n + 1)
        from rfl,
      ih (n + 1), harith]
    rfl

theorem indexedFrom_length {α : Type} (l : List α) (n : Nat) :
    (indexedFrom l n).length = l.length := by
  induction l generalizing n with
  | nil => rfl
  | cons x rest ih => simp [indexedFrom, ih]

theorem indexedFrom_keys {α : Type} (l : List α) (n : Nat) :
    (indexedFrom l n).map (·.1) = l := by
  induction l generalizing n with
  | nil => rfl
  | cons x rest ih => simp [indexedFrom, ih]

theorem alookup_map_pair {α β : Type} [DecidableEq α] (l : List α) (g : α → β) (k : α)
    (h : k ∈ l) : alookup k (l.map (fun x => (x, g x))) = some (g k) := by
  induction l with
  | nil => cases h
  | cons x rest ih =>
    by_cases hx : x = k
    · subst hx; simp [alookup_cons]
    · rcases List.mem_cons.mp h with h1 | h2
      · exact absurd h1.symm hx
      · simpa [alookup_cons, hx] using ih h2

theorem alookup_map_pair_none {α β : Type} [DecidableEq α] (l : List α) (g : α → β) (k : α)
    (h : k ∉ l) : alookup k (l.map (fun x => (x, g x))) = none := by
  induction l with
  | nil => rfl
  | cons x rest ih =>
    have hx : x ≠ k := fun he => h (he ▸ List.mem_cons_self x rest)
    have hrest : k ∉ rest := fun hr => h (List.mem_cons_of_mem x hr)
    simpa [alookup_cons, hx] using ih hrest

theorem alookup_indexedFrom_map {α : Type} [DecidableEq α] (l : List α) (hnd : l.Nodup) :
    ∀ n, l.map (fun a => (alookup a (indexedFrom l n)).getD 0) =
      (List.range l.length).map (n + ·) := by
  induction l with
  | nil => intro n; rfl
  | cons x rest ih =>
    intro n
    have hx : x ∉ rest := (List.nodup_cons.mp hnd).1
    have hrest : rest.Nodup := (List.nodup_cons.mp hnd).2
    have hhead : (alookup x (indexedFrom (x :: rest) n)).getD 0 = n := by
      simp [indexedFrom, alookup_cons]
    have htail : rest.map (fun a => (alookup a (indexedFrom (x :: rest) n)).getD 0) =
        (List.range rest.length).map (fun i => n + 1 + i) := by
      have hcong : rest.map (fun a => (alookup a ((x, n) :: indexedFrom rest (n + 1))).getD 0) =
          rest.map (fun a => (alookup a (indexedFrom rest (n + 1))).getD 0) :=
        List.map_congr_left (fun a ha => by
          rw [alookup_cons, if_neg (fun he => hx (by rw [he]; exact ha))])
      calc rest.map (fun a => (alookup a (indexedFrom (x :: rest) n)).getD 0)
          = rest.map (fun a => (alookup a (indexedFrom rest (n + 1))).getD 0) := hcong
        _ = (List.range rest.length).map ((n + 1) + ·) := ih hrest (n + 1)
        _ = (List.range rest.length).map (fun i => n + 1 + i) := rfl
    simp only [List.map_cons, hhead, htail, List.length_cons, List.range_succ_eq_map,
      List.map_map]
    have hfun : ((fun i => n + i) ∘ Nat.succ) = (fun i => n + 1 + i) := by
      funext i
      simp only [Function.comp_apply, Nat.succ_eq_add_one]
      omega
    rw [hfun]
    simp

theorem alookup_eq_none_keys {α β : Type} [DecidableEq α] (l : List (α × β)) (k : α)
    (h : k ∉ l.map (·.1)) : alookup k l = none := by
  induction l with
  | nil => rfl
  | cons q rest ih =>
    obtain ⟨a, b⟩ := q
    have ha : a ≠ k := fun he => h (by simp [he])
    have hrest : k ∉ rest.map (·.1) := fun hm => h (by simp; right; simpa using hm)
    rw [alookup_cons, if_neg ha]
    exact ih hrest

theorem mem_key2sOf (ps : List (String × String)) (x k2 : String) :
    k2 ∈ key2sOf ps x ↔ (x, k2) ∈ ps := by
  unfold key2sOf
  simp only [List.mem_map, List.mem_filter, decide_eq_true_eq]
  constructor
  · rintro ⟨⟨q1, q2⟩, ⟨hq, hq1⟩, hq2⟩
    simp only at hq1 hq2
    cases hq1
    cases hq2
    exact hq
  · intro h
    exact ⟨(x, k2), ⟨h, rfl⟩, rfl⟩

theorem key2sOf_eq_nil (ps : List (String × String)) (x : String)
    (h : x ∉ ps.map (·.1)) : key2sOf ps x = [] := by
  unfold key2sOf
  rw [List.filter_eq_nil_iff.mpr]
  · rfl
  · intro q hq
    simp only [decide_eq_true_eq]
    exact fun he => h (List.mem_map.mpr ⟨q, hq, he⟩)

theorem subFold_append (ps : List (String × String)) (p : String × String) :
    subFold (ps ++ [p]) = subStep (subFold ps) p := by
  simp [subFold, List.foldl_append]

theorem key2sOf_append (ps : List (String × String)) (p : String × String) (x : String) :
    key2sOf (ps ++ [p]) x = key2sOf ps x ++ (if p.1 = x then [p.2] else []) := by
  unfold key2sOf
  rw [List.filter_append, List.map_append]
  congr 1
  by_cases hp : p.1 = x <;> simp [hp]

theorem subFold_eq (ps : List (String × String)) (hnd : ps.Nodup) :
    subFold ps =
      (firstSeen (ps.map (·.1))).map (fun x => (x, indexedFrom (key2sOf ps x) 0)) := by
  induction ps using List.reverseRecOn with
  | nil => rfl
  | append_singleton ps p ih =>
    rw [List.nodup_append] at hnd
    obtain ⟨hps, -, hdisj⟩ := hnd
    have hp_not : p ∉ ps := fun hmem => hdisj hmem (List.mem_singleton_self p)
    rw [subFold_append, ih hps, List.map_append]
    simp only [List.map_cons, List.map_nil]
    rw [firstSeen_append_one]
    unfold seenStep
    by_cases hmem : p.1 ∈ firstSeen (ps.map (·.1))
    · -- p.1 already has a group: its subkey dict gets the fresh p.2 appended
      have hmem1 : p.1 ∈ ps.map (·.1) := (mem_firstSeen _ _).mp hmem
      rw [if_pos hmem]
      unfold subStep
      rw [alookup_map_pair _ _ _ hmem]
      dsimp only
      have hk2 : p.2 ∉ key2sOf ps p.1 := fun hin => hp_not ((mem_key2sOf ps p.1 p.2).mp hin)
      have hlk : alookup p.2 (indexedFrom (key2sOf ps p.1) 0) = none :=
        alookup_eq_none_keys _ _ (by rwa [indexedFrom_keys])
      rw [List.map_map]
      apply List.map_congr_left
      intro x hx
      by_cases hxp : x = p.1
      · subst hxp
        simp only [Function.comp_apply, if_pos rfl]
        rw [key2sOf_append, if_pos rfl]
        rw [indexedFrom_append]
        unfold pyDictSet
        rw [hlk]
        simp only [Option.isSome_none, Bool.false_eq_true, if_false, if_neg]
        rw [indexedFrom_length]
        simp
      · simp only [Function.comp_apply, if_neg hxp]
        rw [key2sOf_append, if_neg (fun he => hxp he.symm)]
        simp
    · -- first key with this base name: a new group is appended at the end
      have hmem1 : p.1 ∉ ps.map (·.1) := fun hm => hmem ((mem_firstSeen _ _).mpr hm)
      rw [if_neg hmem]
      unfold subStep
      rw [alookup_map_pair_none _ _ _ hmem]
      dsimp only
      rw [List.map_append]
      congr 1
      · apply List.map_congr_left
        intro x hx
        have hxp : p.1 ≠ x := fun he => hmem (he ▸ hx)
        rw [key2sOf_append, if_neg hxp]
        simp
      · simp only [List.map_cons, List.map_nil]
        rw [key2sOf_append, if_pos rfl, key2sOf_eq_nil ps p.1 hmem1]
        rfl

theorem flatMap_congr {α β : Type} (l : List α) (f g : α → List β)
    (h : ∀ x ∈ l, f x = g x) : l.flatMap f = l.flatMap g := by
  induction l with
  | nil => rfl
  | cons x rest ih =>
    simp only [List.flatMap_cons]
    rw [h x (List.mem_cons_self x rest), ih (fun y hy => h y (List.mem_cons_of_mem x hy))]

theorem sum_map_ite_single {α : Type} [DecidableEq α] (l : List α) (b : α) (c : Nat)
    (hnd : l.Nodup) (hb : b ∈ l) :
    (l.map (fun x => if b = x then c else 0)).sum = c := by
  induction l with
  | nil => cases hb
  | cons x rest ih =>
    rcases List.mem_cons.mp hb with rfl | hmem
    · have hnotin : b ∉ rest := (List.nodup_cons.mp hnd).1
      simp only [List.map_cons, List.sum_cons, if_pos rfl]
      have hz : (rest.map (fun x => if b = x then c else 0)).sum = 0 := by
        apply List.sum_eq_zero
        intro y hy
        rcases List.mem_map.mp hy with ⟨z, hz2, hzy⟩
        rw [← hzy, if_neg (fun he => hnotin (by rw [he]; exact hz2))]
      rw [hz]
      simp
    · have hxr : x ∉ rest := (List.nodup_cons.mp hnd).1
      have hbx : b ≠ x := fun he => hxr (by rw [← he]; exact hmem)
      simp only [List.map_cons, List.sum_cons, if_neg hbx]
      rw [ih (List.nodup_cons.mp hnd).2 hmem]
      omega

theorem cnt_flatMap {α β : Type} [DecidableEq β] (l : List α) (f : α → List β) (b : β) :
    List.count b (l.flatMap f) = (l.map (fun a => List.count b (f a))).sum := by
  induction l with
  | nil => rfl
  | cons x rest ih => simp [List.flatMap_cons, List.count_append, ih]

theorem cnt_filter_pos {α : Type} [DecidableEq α] (p : α → Bool) (l : List α) (a : α)
    (h : p a = true) : List.count a (l.filter p) = List.count a l :=
  List.count_filter h

theorem cnt_filter_neg {α : Type} [DecidableEq α] (p : α → Bool) (l : List α) (a : α)
    (h : p a = false) : List.count a (l.filter p) = 0 := by
  rw [List.count_eq_zero]
  intro hmem
  rw [(List.mem_filter.mp hmem).2] at h
  cases h

theorem group_perm {α κ : Type} [DecidableEq α] [DecidableEq κ] (ps : List α) (f : α → κ) :
    ps.Perm ((firstSeen (ps.map f)).flatMap (fun x => ps.filter (fun q => f q = x))) := by
  rw [List.perm_iff_count]
  intro q
  rw [cnt_flatMap]
  have hterm : ∀ x ∈ firstSeen (ps.map f),
      (fun x => List.count q (ps.filter (fun q2 => f q2 = x))) x =
      (fun x => if f q = x then List.count q ps else 0) x := by
    intro x _
    simp only
    by_cases hqx : f q = x
    · rw [if_pos hqx]
      exact cnt_filter_pos (fun q2 => f q2 = x) ps q (by simp [hqx])
    · rw [if_neg hqx]
      exact cnt_filter_neg (fun q2 => f q2 = x) ps q (by simp [hqx])
  rw [List.map_congr_left hterm]
  by_cases hq : q ∈ ps
  · have hq1 : f q ∈ firstSeen (ps.map f) :=
      (mem_firstSeen _ _).mpr (List.mem_map.mpr ⟨q, hq, rfl⟩)
    rw [sum_map_ite_single _ _ _ (nodup_firstSeen _) hq1]
  · have hc : List.count q ps = 0 := List.count_eq_zero.mpr hq
    rw [hc]
    symm
    apply List.sum_eq_zero
    intro y hy
    rcases List.mem_map.mp hy with ⟨z, _, hzy⟩
    rw [← hzy]
    split <;> rfl

theorem key1BlockOffsetsAux_eq_startsAux (sub : List (String × List (String × Nat)))
    (n : Nat) :
    key1BlockOffsetsAux sub n = startsAux (sub.map (fun q => (q.1, q.2.length))) n := by
  induction sub generalizing n with
  | nil => rfl
  | cons g rest ih =>
    obtain ⟨x, d⟩ := g
    simp [key1BlockOffsetsAux, startsAux, ih]

theorem nodup_key2sOf (ps : List (String × String)) (hnd : ps.Nodup) (x : String) :
    (key2sOf ps x).Nodup := by
  unfold key2sOf
  apply List.Nodup.map_on
  · intro q1 hq1 q2 hq2 he
    have h1 : q1.1 = x := by simpa using (List.mem_filter.mp hq1).2
    have h2 : q2.1 = x := by simpa using (List.mem_filter.mp hq2).2
    exact Prod.ext (h1.trans h2.symm) he
  · exact hnd.filter _

theorem flatcum (gs : List (String × Nat)) (hnd : (gs.map (·.1)).Nodup) :
    ∀ n, gs.flatMap (fun q => (List.range q.2).map
        (fun i => (alookup q.1 (startsAux gs n)).getD 0 + i)) =
      (List.range ((gs.map (·.2)).sum)).map (n + ·) := by
  induction gs with
  | nil => intro n; rfl
  | cons g rest ih =>
    intro n
    obtain ⟨x, len⟩ := g
    have hnd2 := hnd
    simp only [List.map_cons, List.nodup_cons] at hnd2
    obtain ⟨hx_not, hrest_nd⟩ := hnd2
    have hhead : alookup x (startsAux ((x, len) :: rest) n) = some n := by
      simp [startsAux, alookup_cons]
    have htail_lookup : ∀ q ∈ rest, alookup q.1 (startsAux ((x, len) :: rest) n) =
        alookup q.1 (startsAux rest (n + len)) := by
      intro q hq
      have hxq : x ≠ q.1 := fun he => hx_not (he ▸ List.mem_map.mpr ⟨q, hq, rfl⟩)
      simp [startsAux, alookup_cons, hxq]
    simp only [List.flatMap_cons]
    rw [flatMap_congr rest _
        (fun q => (List.range q.2).map (fun i => (alookup q.1 (startsAux rest (n + len))).getD 0 + i))
        (fun q hq => by rw [htail_lookup q hq]),
      ih hrest_nd (n + len), hhead]
    simp only [Option.getD_some, List.map_cons, List.sum_cons, List.range_add, List.map_append,
      List.map_map]
    congr 1
    apply List.map_congr_left
    intro i _
    simp only [Function.comp_apply]
    omega

theorem blockOffsets_perm_core (ps : List (String × String)) (hnd : ps.Nodup) :
    (ps.map (offsetOfPair (subFold ps) (key1BlockOffsetsAux (subFold ps) 0))).Perm
      (List.range ps.length) := by
  have hchar := subFold_eq ps hnd
  have hmapped := (group_perm ps (fun q => q.1)).map
    (offsetOfPair (subFold ps) (key1BlockOffsetsAux (subFold ps) 0))
  have heq : ((firstSeen (ps.map (fun q => q.1))).flatMap
      (fun x => ps.filter (fun q => q.1 = x))).map
        (offsetOfPair (subFold ps) (key1BlockOffsetsAux (subFold ps) 0)) =
      List.range ps.length := by
    rw [List.map_flatMap]
    have hgroup : ∀ x ∈ firstSeen (ps.map (fun q => q.1)),
        (ps.filter (fun q => q.1 = x)).map
          (offsetOfPair (subFold ps) (key1BlockOffsetsAux (subFold ps) 0)) =
        (List.range (key2sOf ps x).length).map
          (fun i => (alookup x (key1BlockOffsetsAux (subFold ps) 0)).getD 0 + i) := by
      intro x hx
      have hsubx : alookup x (subFold ps) = some (indexedFrom (key2sOf ps x) 0) := by
        rw [hchar]
        exact alookup_map_pair _ _ x hx
      have hfm : (ps.filter (fun q => q.1 = x)).map
          (offsetOfPair (subFold ps) (key1BlockOffsetsAux (subFold ps) 0)) =
          ((ps.filter (fun q => q.1 = x)).map (fun q => q.2)).map (fun k2 =>
            (alookup x (key1BlockOffsetsAux (subFold ps) 0)).getD 0 +
              (alookup k2 (indexedFrom (key2sOf ps x) 0)).getD 0) := by
        rw [List.map_map]
        apply List.map_congr_left
        intro q hq
        have hq1 : q.1 = x := by simpa using (List.mem_filter.mp hq).2
        simp only [Function.comp_apply]
        unfold offsetOfPair
        rw [hq1, hsubx]
        rfl
      rw [hfm]
      rw [show (ps.filter (fun q => q.1 = x)).map (fun q => q.2) = key2sOf ps x from rfl]
      have hidx := alookup_indexedFrom_map (key2sOf ps x) (nodup_key2sOf ps hnd x) 0
      calc (key2sOf ps x).map (fun k2 =>
            (alookup x (key1BlockOffsetsAux (subFold ps) 0)).getD 0 +
              (alookup k2 (indexedFrom (key2sOf ps x) 0)).getD 0)
          = ((key2sOf ps x).map (fun a => (alookup a (indexedFrom (key2sOf ps x) 0)).getD 0)).map
              (fun i => (alookup x (key1BlockOffsetsAux (subFold ps) 0)).getD 0 + i) := by
            rw [List.map_map]
            rfl
        _ = ((List.range (key2sOf ps x).length).map (fun i2 => 0 + i2)).map
              (fun i => (alookup x (key1BlockOffsetsAux (subFold ps) 0)).getD 0 + i) := by
            rw [hidx]
        _ = (List.range (key2sOf ps x).length).map
              (fun i => (alookup x (key1BlockOffsetsAux (subFold ps) 0)).getD 0 + i) := by
            rw [List.map_map]
            apply List.map_congr_left
            intro i _
            simp
    rw [flatMap_congr _ _ _ hgroup]
    have hgs : (subFold ps).map (fun q => (q.1, q.2.length)) =
        (firstSeen (ps.map (fun q => q.1))).map (fun x => (x, (key2sOf ps x).length)) := by
      rw [hchar, List.map_map]
      apply List.map_congr_left
      intro x _
      simp [indexedFrom_length]
    have hndgs : (((firstSeen (ps.map (fun q => q.1))).map
        (fun x => (x, (key2sOf ps x).length))).map (·.1)).Nodup := by
      rw [List.map_map]
      have hid : (firstSeen (ps.map (fun q => q.1))).map
          ((·.1) ∘ (fun x => (x, (key2sOf ps x).length))) =
          firstSeen (ps.map (fun q => q.1)) := List.map_id' _
      rw [hid]
      exact nodup_firstSeen _
    have hflat := flatcum ((firstSeen (ps.map (fun q => q.1))).map
        (fun x => (x, (key2sOf ps x).length))) hndgs 0
    rw [List.flatMap_map] at hflat
    dsimp only at hflat
    rw [key1BlockOffsetsAux_eq_startsAux, hgs]
    rw [hflat]
    have hsum : (((firstSeen (ps.map (fun q => q.1))).map
        (fun x => (x, (key2sOf ps x).length))).map (·.2)).sum = ps.length := by
      rw [List.map_map]
      have hstep : (firstSeen (ps.map (fun q => q.1))).map
          ((·.2) ∘ (fun x => (x, (key2sOf ps x).length))) =
          (firstSeen (ps.map (fun q => q.1))).map
            (List.length ∘ (fun x => ps.filter (fun q => q.1 = x))) := by
        apply List.map_congr_left
        intro x _
        simp only [Function.comp_apply]
        unfold key2sOf
        rw [List.length_map]
      rw [hstep, ← List.length_flatMap]
      exact ((group_perm ps (fun q => q.1)).length_eq).symm
    rw [hsum]
    simp
  exact hmapped.trans (by rw [heq])

theorem blockOffsetsOf_snd (keys : List SkimKey) :
    (blockOffsetsOf keys).map (·.2) =
      (keys.map keyPair).map (offsetOfPair (subFold (keys.map keyPair))
        (key1BlockOffsetsAux (subFold (keys.map keyPair)) 0)) := by
  unfold blockOffsetsOf
  rw [List.map_map, List.map_map]
  have hsub : key1SubkeysOf keys = subFold (keys.map keyPair) := by
    unfold key1SubkeysOf subFold
    rw [List.foldl_map]
  rw [hsub]
  rfl

/-- C1 counterexample: one file containing matrices `A` and `A__A` makes the
scalar key `A` and the composite key `(A, A)` share the subkey slot, so
`block_offsets` comes out as values `[1, 1]` with `num_skims = 2` — not a
gapless permutation of `0..1` as claimed for arbitrary retained names. -/
theorem c1_counterexample :
    (load_skim_info "taz" [⟨"f1", (2, 2), ["A", "A__A"], []⟩] []).map
      (fun si => (si.num_skims, si.block_offsets.map (·.2))) = .ok (2, [1, 1]) ∧
    ¬ ([1, 1] : List Nat).Perm (List.range 2) := by
  constructor
  · rfl
  · decide

/-- C1 (amended): whenever the retained keys' `(key1, key2)` pairs are
pairwise distinct — that is, no retained scalar matrix `X` coexists with a
retained composite matrix `X__X` — the `block_offsets` values of a catalog
built by `load_skim_info` are exactly a permutation of `0..num_skims-1`, with
no gaps and no repeats. -/
theorem c1_amended (tag : String) (files : List OmxFile) (tags : List String)
    (info : SkimInfo) (h : load_skim_info tag files tags = .ok info)
    (hnd : (info.omx_keys.map (fun q => keyPair q.1)).Nodup) :
    (info.block_offsets.map (·.2)).Perm (List.range info.num_skims) := by
  obtain ⟨st, hst, hinfo⟩ := load_skim_info_ok_inv tag files tags info h
  subst hinfo
  simp only at hnd ⊢
  rw [blockOffsetsOf_snd]
  have hps : ((omxKeysOf tags (st.omx_manifest.map (·.1))).map (·.1)).map keyPair =
      (omxKeysOf tags (st.omx_manifest.map (·.1))).map (fun q => keyPair q.1) := by
    rw [List.map_map]
    rfl
  rw [hps]
  have hcore := blockOffsets_perm_core
    ((omxKeysOf tags (st.omx_manifest.map (·.1))).map (fun q => keyPair q.1)) hnd
  simpa [List.length_map] using hcore

/-- C1 witness: the two-file DIST / TIME__AM / TIME__PM catalog has distinct
key pairs and block offsets `[0, 1, 2]`, a permutation of `range 3`. -/
theorem c1_amended_witness :
    (SkimInfo.block_offsets
      { skim_tag := "taz", omx_file_names := ["f1", "f2"],
        omx_manifest := [("DIST", "f1"), ("TIME__AM", "f2"), ("TIME__PM", "f2")],
        omx_shape := some (2, 2), num_skims := 3, dtype := .float32,
        offset_map_name := none, offset_map := none,
        omx_keys := [(.scalar "DIST", "DIST"), (.composite "TIME" "AM", "TIME__AM"),
          (.composite "TIME" "PM", "TIME__PM")],
        key1_block_offsets := [("DIST", 0), ("TIME", 1)],
        block_offsets := [(.scalar "DIST", 0), (.composite "TIME" "AM", 1),
          (.composite "TIME" "PM", 2)] } |>.map (·.2)).Perm (List.range 3) :=
  c1_amended "taz" [⟨"f1", (2, 2), ["DIST"], []⟩, ⟨"f2", (2, 2), ["TIME__AM", "TIME__PM"], []⟩]
    ["AM", "PM"]
    { skim_tag := "taz", omx_file_names := ["f1", "f2"],
      omx_manifest := [("DIST", "f1"), ("TIME__AM", "f2"), ("TIME__PM", "f2")],
      omx_shape := some (2, 2), num_skims := 3, dtype := .float32,
      offset_map_name := none, offset_map := none,
      omx_keys := [(.scalar "DIST", "DIST"), (.composite "TIME" "AM", "TIME__AM"),
        (.composite "TIME" "PM", "TIME__PM")],
      key1_block_offsets := [("DIST", 0), ("TIME", 1)],
      block_offsets := [(.scalar "DIST", 0), (.composite "TIME" "AM", 1),
        (.composite "TIME" "PM", 2)] } (by rfl) (by decide)

theorem alookup_isSome_iff {α β : Type} [DecidableEq α] (l : List (α × β)) (k : α) :
    (alookup k l).isSome = true ↔ k ∈ l.map (·.1) := by
  induction l with
  | nil => simp [alookup]
  | cons q rest ih =>
    obtain ⟨a, b⟩ := q
    by_cases ha : a = k
    · subst ha
      simp [alookup_cons]
    · simp only [alookup_cons, if_neg ha, List.map_cons, List.mem_cons, ih]
      constructor
      · exact fun h => Or.inr h
      · rintro (h | h)
        · exact absurd h.symm ha
        · exact h

theorem procMatrices_ok (fn : String) (ns : List String) (man : List (String × String))
    (hnd : (man.map (·.1) ++ ns).Nodup) :
    procMatrices fn ns man = .ok (man ++ ns.map (fun n => (n, fn))) := by
  induction ns generalizing man with
  | nil => simp [procMatrices]
  | cons n rest ih =>
    have hn_not : n ∉ man.map (·.1) := by
      rw [List.nodup_append] at hnd
      exact fun hmem => hnd.2.2 hmem (List.mem_cons_self n rest)
    have halo : alookup n man = none := by
      cases h2 : alookup n man with
      | none => rfl
      | some p => exact absurd ((alookup_isSome_iff man n).mp (by simp [h2])) hn_not
    unfold procMatrices
    rw [halo]
    have hnd2 : ((man ++ [(n, fn)]).map (·.1) ++ rest).Nodup := by
      rw [List.map_append]
      have : man.map (·.1) ++ [(n, fn)].map (·.1) ++ rest =
          man.map (·.1) ++ (n :: rest) := by simp
      rw [this]
      exact hnd
    rw [ih (man ++ [(n, fn)]) hnd2]
    simp

theorem procMatrices_dup (fn : String) (ns : List String) (man : List (String × String))
    (hman : (man.map (·.1)).Nodup) (hdup : ¬ (man.map (·.1) ++ ns).Nodup) :
    isDupErr (procMatrices fn ns man) = true := by
  induction ns generalizing man with
  | nil => exact absurd (by simpa using hman) hdup
  | cons n rest ih =>
    unfold procMatrices
    by_cases hn : n ∈ man.map (·.1)
    · have hsome : (alookup n man).isSome = true := (alookup_isSome_iff man n).mpr hn
      cases h2 : alookup n man with
      | none => rw [h2] at hsome; cases hsome
      | some p => rfl
    · have halo : alookup n man = none := by
        cases h2 : alookup n man with
        | none => rfl
        | some p => exact absurd ((alookup_isSome_iff man n).mp (by simp [h2])) hn
      rw [halo]
      apply ih (man ++ [(n, fn)])
      · rw [List.map_append, List.nodup_append]
        exact ⟨hman, by simp, by simpa [List.disjoint_singleton] using hn⟩
      · intro hcon
        apply hdup
        rw [List.map_append] at hcon
        have : man.map (·.1) ++ [(n, fn)].map (·.1) ++ rest =
            man.map (·.1) ++ (n :: rest) := by simp
        rw [this] at hcon
        exact hcon

theorem procMappings_all_eq (rows : Nat) (ms : List (String × List Int)) (cn : Option String)
    (e : List Int) (h : ∀ m ∈ ms, m.2 = e) :
    procMappings rows ms (cn, some e) = .ok (cn, some e) := by
  induction ms with
  | nil => rfl
  | cons m rest ih =>
    obtain ⟨mn, entries⟩ := m
    have he : entries = e := h (mn, entries) (List.mem_cons_self _ _)
    unfold procMappings
    simp only
    rw [if_pos he.symm]
    exact ih (fun m2 hm2 => h m2 (List.mem_cons_of_mem _ hm2))

theorem procMappings_ok (rows : Nat) (ms : List (String × List Int)) (cn : Option String)
    (cur : Option (List Int)) (hcompat : mapCompat rows cur ms) :
    procMappings rows ms (cn, cur) = .ok (mapResult cn cur ms) := by
  cases cur with
  | some e => exact procMappings_all_eq rows ms cn e hcompat
  | none =>
    cases ms with
    | nil => rfl
    | cons m0 tail =>
      obtain ⟨hlen, hall⟩ := hcompat m0 (by simp)
      unfold procMappings
      simp only
      rw [if_pos hlen]
      exact procMappings_all_eq rows tail (some m0.1) m0.2
        (fun m hm => hall m (List.mem_cons_of_mem _ hm))

theorem procMappings_conflict_some (rows : Nat) (ms : List (String × List Int))
    (cn : Option String) (e : List Int) (h : ∃ m ∈ ms, m.2 ≠ e) :
    ∃ n1 n2, procMappings rows ms (cn, some e) = .error (.multipleMappings n1 n2) := by
  induction ms with
  | nil => simp at h
  | cons m rest ih =>
    obtain ⟨mn, entries⟩ := m
    by_cases he : entries = e
    · have hrest : ∃ m2 ∈ rest, m2.2 ≠ e := by
        obtain ⟨w, hw, hwne⟩ := h
        rcases List.mem_cons.mp hw with rfl | hw2
        · exact absurd he hwne
        · exact ⟨w, hw2, hwne⟩
      obtain ⟨n1, n2, hh⟩ := ih hrest
      refine ⟨n1, n2, ?_⟩
      unfold procMappings
      simp only
      rw [if_pos he.symm]
      exact hh
    · refine ⟨cn.getD "", mn, ?_⟩
      unfold procMappings
      simp only
      rw [if_neg (fun hee => he hee.symm)]

theorem procMappings_conflict_none (rows : Nat) (m0 : String × List Int)
    (tail : List (String × List Int)) (cn : Option String)
    (hlen : m0.2.length = rows) (h : ∃ m ∈ tail, m.2 ≠ m0.2) :
    ∃ n1 n2, procMappings rows (m0 :: tail) (cn, none) = .error (.multipleMappings n1 n2) := by
  obtain ⟨n1, n2, hh⟩ := procMappings_conflict_some rows tail (some m0.1) m0.2 h
  refine ⟨n1, n2, ?_⟩
  unfold procMappings
  simp only
  rw [if_pos hlen]
  exact hh

theorem procShape_ok_eq (st : ManifestState) (f : OmxFile) (sh : Nat × Nat)
    (hfsh : f.shape = sh) (hshst : st.omx_shape = none ∨ st.omx_shape = some sh) :
    procShape st f = .ok { st with omx_shape := some sh } := by
  obtain ⟨sO, sN, sV, sM⟩ := st
  simp only at hshst
  unfold procShape
  rcases hshst with h0 | h0 <;> subst h0
  · simp only
    rw [hfsh]
  · simp only
    rw [if_pos hfsh.symm]

theorem processFile_ok_eq (st : ManifestState) (f : OmxFile) (sh : Nat × Nat)
    (hfsh : f.shape = sh)
    (hshst : st.omx_shape = none ∨ st.omx_shape = some sh)
    (hnd1 : (st.omx_manifest.map (·.1) ++ f.matrices).Nodup)
    (hmapf : mapCompat sh.1 st.offset_map f.mappings) :
    processFile st f = .ok ⟨some sh,
      (mapResult st.offset_map_name st.offset_map f.mappings).1,
      (mapResult st.offset_map_name st.offset_map f.mappings).2,
      st.omx_manifest ++ f.matrices.map (fun n => (n, f.name))⟩ := by
  unfold processFile
  rw [procShape_ok_eq st f sh hfsh hshst]
  show (Except.ok _).bind _ = _
  rw [Except.bind]
  simp only
  rw [procMatrices_ok f.name f.matrices st.omx_manifest hnd1]
  show (Except.ok _).bind _ = _
  rw [Except.bind]
  have hrows : ((some sh : Option (Nat × Nat)).getD f.shape).1 = sh.1 := rfl
  rw [hrows, procMappings_ok sh.1 f.mappings st.offset_map_name st.offset_map hmapf]
  show (Except.ok _).bind _ = _
  rw [Except.bind]

theorem processFile_dup (st : ManifestState) (f : OmxFile) (sh : Nat × Nat)
    (hfsh : f.shape = sh)
    (hshst : st.omx_shape = none ∨ st.omx_shape = some sh)
    (hman : (st.omx_manifest.map (·.1)).Nodup)
    (hdup1 : ¬ (st.omx_manifest.map (·.1) ++ f.matrices).Nodup) :
    isDupErr (processFile st f) = true := by
  unfold processFile
  rw [procShape_ok_eq st f sh hfsh hshst]
  show isDupErr ((Except.ok _).bind _) = true
  rw [Except.bind]
  simp only
  have hd := procMatrices_dup f.name f.matrices st.omx_manifest hman hdup1
  cases hpm : procMatrices f.name f.matrices st.omx_manifest with
  | error e =>
    rw [hpm] at hd
    exact hd
  | ok man => rw [hpm] at hd; cases hd

theorem processFile_multi (st : ManifestState) (f : OmxFile) (sh : Nat × Nat)
    (hfsh : f.shape = sh)
    (hshst : st.omx_shape = none ∨ st.omx_shape = some sh)
    (hnd1 : (st.omx_manifest.map (·.1) ++ f.matrices).Nodup)
    (hconf : ∃ n1 n2, procMappings sh.1 f.mappings (st.offset_map_name, st.offset_map) =
      .error (.multipleMappings n1 n2)) :
    ∃ n1 n2, processFile st f = .error (.multipleMappings n1 n2) := by
  obtain ⟨n1, n2, hc⟩ := hconf
  refine ⟨n1, n2, ?_⟩
  unfold processFile
  rw [procShape_ok_eq st f sh hfsh hshst]
  show (Except.ok _).bind _ = _
  rw [Except.bind]
  simp only
  rw [procMatrices_ok f.name f.matrices st.omx_manifest hnd1]
  show (Except.ok _).bind _ = _
  rw [Except.bind]
  have hrows : ((some sh : Option (Nat × Nat)).getD f.shape).1 = sh.1 := rfl
  rw [hrows, hc]
  rfl

theorem nodup_append_left_of_assoc {α : Type} (A B C : List α)
    (h : (A ++ (B ++ C)).Nodup) : (A ++ B).Nodup := by
  have hsub : (A ++ B).Sublist ((A ++ B) ++ C) := List.sublist_append_left _ _
  rw [List.append_assoc] at hsub
  exact List.Nodup.sublist hsub h


theorem mapResult_chain (cn : Option String) (cur : Option (List Int))
    (ms1 ms2 : List (String × List Int)) :
    mapResult (mapResult cn cur ms1).1 (mapResult cn cur ms1).2 ms2 =
      mapResult cn cur (ms1 ++ ms2) := by
  cases cur with
  | some e => rfl
  | none => cases ms1 <;> rfl

theorem mapCompat_left (rows : Nat) (cur : Option (List Int))
    (ms1 ms2 : List (String × List Int)) (h : mapCompat rows cur (ms1 ++ ms2)) :
    mapCompat rows cur ms1 := by
  cases cur with
  | some e => exact fun m hm => h m (List.mem_append.mpr (Or.inl hm))
  | none =>
    intro m0 hm0
    cases ms1 with
    | nil => cases hm0
    | cons g tail =>
      have hm0g : m0 = g := by
        have := hm0
        simp [List.head?] at this
        exact this.symm
      subst hm0g
      have hg := h m0 (by simp [List.head?])
      exact ⟨hg.1, fun m hm => hg.2 m (List.mem_append.mpr (Or.inl hm))⟩

theorem mapCompat_right (rows : Nat) (cn : Option String) (cur : Option (List Int))
    (ms1 ms2 : List (String × List Int)) (h : mapCompat rows cur (ms1 ++ ms2)) :
    mapCompat rows (mapResult cn cur ms1).2 ms2 := by
  cases cur with
  | some e => exact fun m hm => h m (List.mem_append.mpr (Or.inr hm))
  | none =>
    cases ms1 with
    | nil => exact h
    | cons m0 tail =>
      have hg := h m0 (by simp [List.head?])
      exact fun m hm => hg.2 m (List.mem_append.mpr (Or.inr hm))

theorem manifest_keys_append (man : List (String × String)) (f : OmxFile) :
    ((man ++ f.matrices.map (fun n => (n, f.name))).map (·.1)) =
      man.map (·.1) ++ f.matrices := by
  rw [List.map_append, List.map_map]
  congr 1
  exact List.map_id' _

theorem foldlM_processFile_ok (files : List OmxFile) (sh : Nat × Nat) :
    ∀ st : ManifestState, (∀ f ∈ files, f.shape = sh) →
    (st.omx_shape = none ∨ st.omx_shape = some sh) →
    mapCompat sh.1 st.offset_map (allMappings files) →
    ((st.omx_manifest.map (·.1) ++ allMatrixNames files).Nodup) →
    ∃ st2, files.foldlM processFile st = .ok st2 ∧
      st2.omx_manifest = st.omx_manifest ++
        files.flatMap (fun f => f.matrices.map (fun n => (n, f.name))) ∧
      (st2.offset_map_name, st2.offset_map) =
        mapResult st.offset_map_name st.offset_map (allMappings files) := by
  induction files with
  | nil =>
    intro st _ _ _ _
    refine ⟨st, rfl, by simp, ?_⟩
    unfold mapResult
    cases st.offset_map <;> rfl
  | cons f rest ih =>
    intro st hsh hshst hmap hnd
    have hfsh : f.shape = sh := hsh f (List.mem_cons_self f rest)
    have hallm : allMappings (f :: rest) = f.mappings ++ allMappings rest := by
      simp [allMappings]
    have halln : allMatrixNames (f :: rest) = f.matrices ++ allMatrixNames rest := by
      simp [allMatrixNames]
    rw [halln] at hnd
    have hnd1 : (st.omx_manifest.map (·.1) ++ f.matrices).Nodup :=
      nodup_append_left_of_assoc _ _ _ hnd
    rw [hallm] at hmap
    have hmapf : mapCompat sh.1 st.offset_map f.mappings :=
      mapCompat_left _ _ _ _ hmap
    have hpf := processFile_ok_eq st f sh hfsh hshst hnd1 hmapf
    obtain ⟨st2, hfold, hman2, hmapr2⟩ := ih ⟨some sh,
        (mapResult st.offset_map_name st.offset_map f.mappings).1,
        (mapResult st.offset_map_name st.offset_map f.mappings).2,
        st.omx_manifest ++ f.matrices.map (fun n => (n, f.name))⟩
      (fun g hg => hsh g (List.mem_cons_of_mem f hg))
      (Or.inr rfl)
      (mapCompat_right sh.1 st.offset_map_name st.offset_map f.mappings (allMappings rest) hmap)
      (by
        show (((st.omx_manifest ++ f.matrices.map (fun n => (n, f.name))).map (·.1)) ++
          allMatrixNames rest).Nodup
        rw [manifest_keys_append, List.append_assoc]
        exact hnd)
    refine ⟨st2, ?_, ?_, ?_⟩
    · rw [List.foldlM_cons, hpf]
      exact hfold
    · rw [hman2]
      simp only [List.flatMap_cons, List.append_assoc]
    · rw [hmapr2]
      show mapResult (mapResult st.offset_map_name st.offset_map f.mappings).1
        (mapResult st.offset_map_name st.offset_map f.mappings).2 (allMappings rest) = _
      rw [mapResult_chain, hallm]

theorem foldlM_processFile_dup (files : List OmxFile) (sh : Nat × Nat) :
    ∀ st : ManifestState, (∀ f ∈ files, f.shape = sh) →
    (st.omx_shape = none ∨ st.omx_shape = some sh) →
    mapCompat sh.1 st.offset_map (allMappings files) →
    (st.omx_manifest.map (·.1)).Nodup →
    ¬ (st.omx_manifest.map (·.1) ++ allMatrixNames files).Nodup →
    isDupErr (files.foldlM processFile st) = true := by
  induction files with
  | nil =>
    intro st _ _ _ hman hdup
    exact absurd (by simpa [allMatrixNames] using hman) hdup
  | cons f rest ih =>
    intro st hsh hshst hmap hman hdup
    have hfsh := hsh f (List.mem_cons_self f rest)
    have halln : allMatrixNames (f :: rest) = f.matrices ++ allMatrixNames rest := by
      simp [allMatrixNames]
    rw [halln] at hdup
    rw [List.foldlM_cons]
    by_cases hnd1 : (st.omx_manifest.map (·.1) ++ f.matrices).Nodup
    · have hallm : allMappings (f :: rest) = f.mappings ++ allMappings rest := by
        simp [allMappings]
      rw [hallm] at hmap
      have hpf := processFile_ok_eq st f sh hfsh hshst hnd1 (mapCompat_left _ _ _ _ hmap)
      rw [hpf]
      exact ih ⟨some sh,
          (mapResult st.offset_map_name st.offset_map f.mappings).1,
          (mapResult st.offset_map_name st.offset_map f.mappings).2,
          st.omx_manifest ++ f.matrices.map (fun n => (n, f.name))⟩
        (fun g hg => hsh g (List.mem_cons_of_mem f hg)) (Or.inr rfl)
        (mapCompat_right sh.1 st.offset_map_name st.offset_map f.mappings
          (allMappings rest) hmap)
        (by
          show ((st.omx_manifest ++ f.matrices.map (fun n => (n, f.name))).map (·.1)).Nodup
          rw [manifest_keys_append]
          exact hnd1)
        (by
          show ¬ (((st.omx_manifest ++ f.matrices.map (fun n => (n, f.name))).map (·.1)) ++
            allMatrixNames rest).Nodup
          rw [manifest_keys_append, List.append_assoc]
          exact hdup)
    · have hpd := processFile_dup st f sh hfsh hshst hman hnd1
      cases hpf : processFile st f with
      | error e =>
        rw [hpf] at hpd
        exact hpd
      | ok st1 => rw [hpf] at hpd; cases hpd

theorem foldlM_processFile_multi (files : List OmxFile) (sh : Nat × Nat) :
    ∀ st : ManifestState, (∀ f ∈ files, f.shape = sh) →
    (st.omx_shape = none ∨ st.omx_shape = some sh) →
    ((st.omx_manifest.map (·.1) ++ allMatrixNames files).Nodup) →
    ((∃ e, st.offset_map = some e ∧ ∃ m ∈ allMappings files, m.2 ≠ e) ∨
      (st.offset_map = none ∧ ∃ m0 tail, allMappings files = m0 :: tail ∧
        m0.2.length = sh.1 ∧ ∃ m ∈ tail, m.2 ≠ m0.2)) →
    ∃ n1 n2, files.foldlM processFile st = .error (.multipleMappings n1 n2) := by
  induction files with
  | nil =>
    intro st _ _ _ hconf
    rcases hconf with ⟨e, _, m, hm, _⟩ | ⟨_, m0, tail, habs, _⟩
    · simp [allMappings] at hm
    · simp [allMappings] at habs
  | cons f rest ih =>
    intro st hsh hshst hnd hconf
    have hfsh := hsh f (List.mem_cons_self f rest)
    have halln : allMatrixNames (f :: rest) = f.matrices ++ allMatrixNames rest := by
      simp [allMatrixNames]
    have hallm : allMappings (f :: rest) = f.mappings ++ allMappings rest := by
      simp [allMappings]
    rw [halln] at hnd
    have hnd1 : (st.omx_manifest.map (·.1) ++ f.matrices).Nodup :=
      nodup_append_left_of_assoc _ _ _ hnd
    rw [List.foldlM_cons]
    rcases hconf with ⟨e, hcur, hex⟩ | ⟨hcur, m0, tail, hdecomp, hlen, hex⟩
    · -- a mapping is already adopted
      rw [hallm] at hex
      by_cases hexf : ∃ m ∈ f.mappings, m.2 ≠ e
      · -- the conflict fires inside this file
        have hc : ∃ n1 n2, procMappings sh.1 f.mappings
            (st.offset_map_name, st.offset_map) = .error (.multipleMappings n1 n2) := by
          rw [hcur]
          exact procMappings_conflict_some sh.1 f.mappings st.offset_map_name e hexf
        obtain ⟨n1, n2, hpf⟩ := processFile_multi st f sh hfsh hshst hnd1 hc
        refine ⟨n1, n2, ?_⟩
        rw [hpf]
        rfl
      · -- this file's mappings all match; recurse
        push_neg at hexf
        have hcompat : mapCompat sh.1 st.offset_map f.mappings := by
          rw [hcur]
          exact fun m hm => hexf m hm
        have hpf := processFile_ok_eq st f sh hfsh hshst hnd1 hcompat
        rw [hpf]
        apply ih _ (fun g hg => hsh g (List.mem_cons_of_mem f hg)) (Or.inr rfl)
          (by
            show (((st.omx_manifest ++ f.matrices.map (fun n => (n, f.name))).map (·.1)) ++
              allMatrixNames rest).Nodup
            rw [manifest_keys_append, List.append_assoc]
            exact hnd)
        left
        refine ⟨e, ?_, ?_⟩
        · show (mapResult st.offset_map_name st.offset_map f.mappings).2 = some e
          rw [hcur]
          rfl
        · obtain ⟨m, hm, hmne⟩ := hex
          rcases List.mem_append.mp hm with hmf | hmr
          · exact absurd (hexf m hmf) hmne
          · exact ⟨m, hmr, hmne⟩
    · -- no mapping adopted yet; the global first mapping is m0
      rw [hallm] at hdecomp
      cases hfm : f.mappings with
      | nil =>
        rw [hfm] at hdecomp
        simp only [List.nil_append] at hdecomp
        have hcompat : mapCompat sh.1 st.offset_map f.mappings := by
          rw [hcur, hfm]
          intro x hx
          cases hx
        have hpf := processFile_ok_eq st f sh hfsh hshst hnd1 hcompat
        rw [hpf]
        apply ih _ (fun g hg => hsh g (List.mem_cons_of_mem f hg)) (Or.inr rfl)
          (by
            show (((st.omx_manifest ++ f.matrices.map (fun n => (n, f.name))).map (·.1)) ++
              allMatrixNames rest).Nodup
            rw [manifest_keys_append, List.append_assoc]
            exact hnd)
        right
        refine ⟨?_, m0, tail, hdecomp, hlen, hex⟩
        show (mapResult st.offset_map_name st.offset_map f.mappings).2 = none
        rw [hcur, hfm]
        rfl
      | cons g tailf =>
        rw [hfm] at hdecomp
        have hg0 : g = m0 := by
          have := congrArg List.head? hdecomp
          simpa [List.head?] using this
        subst hg0
        have htail : tailf ++ allMappings rest = tail := by
          have := congrArg List.tail hdecomp
          simpa using this
        by_cases hexf : ∃ m ∈ tailf, m.2 ≠ g.2
        · have hc : ∃ n1 n2, procMappings sh.1 f.mappings
              (st.offset_map_name, st.offset_map) = .error (.multipleMappings n1 n2) := by
            rw [hcur, hfm]
            exact procMappings_conflict_none sh.1 g tailf st.offset_map_name hlen hexf
          obtain ⟨n1, n2, hpf⟩ := processFile_multi st f sh hfsh hshst hnd1 hc
          refine ⟨n1, n2, ?_⟩
          rw [hpf]
          rfl
        · push_neg at hexf
          have hcompat : mapCompat sh.1 st.offset_map f.mappings := by
            rw [hcur, hfm]
            intro w hw
            have hwg : w = g := by
              have := hw
              simp [List.head?] at this
              exact this.symm
            subst hwg
            exact ⟨hlen, by
              intro m hm
              rcases List.mem_cons.mp hm with rfl | hm2
              · rfl
              · exact hexf m hm2⟩
          have hpf := processFile_ok_eq st f sh hfsh hshst hnd1 hcompat
          rw [hpf]
          apply ih _ (fun g2 hg2 => hsh g2 (List.mem_cons_of_mem f hg2)) (Or.inr rfl)
            (by
              show (((st.omx_manifest ++ f.matrices.map (fun n => (n, f.name))).map (·.1)) ++
                allMatrixNames rest).Nodup
              rw [manifest_keys_append, List.append_assoc]
              exact hnd)
          left
          refine ⟨g.2, ?_, ?_⟩
          · show (mapResult st.offset_map_name st.offset_map f.mappings).2 = some g.2
            rw [hcur, hfm]
            rfl
          · obtain ⟨m, hm, hmne⟩ := hex
            rw [← htail] at hm
            rcases List.mem_append.mp hm with hmf | hmr
            · exact absurd (hexf m hmf) hmne
            · exact ⟨m, hmr, hmne⟩

theorem load_skim_info_of_fold (tag : String) (files : List OmxFile) (tags : List String)
    (st2 : ManifestState)
    (hfold : files.foldlM processFile ⟨none, none, none, []⟩ = .ok st2) :
    load_skim_info tag files tags = .ok
      { skim_tag := tag, omx_file_names := files.map (·.name),
        omx_manifest := st2.omx_manifest, omx_shape := st2.omx_shape,
        num_skims := (omxKeysOf tags (st2.omx_manifest.map (·.1))).length,
        dtype := .float32, offset_map_name := st2.offset_map_name,
        offset_map := st2.offset_map,
        omx_keys := omxKeysOf tags (st2.omx_manifest.map (·.1)),
        key1_block_offsets := key1BlockOffsetsAux
          (key1SubkeysOf ((omxKeysOf tags (st2.omx_manifest.map (·.1))).map (·.1))) 0,
        block_offsets := blockOffsetsOf
          ((omxKeysOf tags (st2.omx_manifest.map (·.1))).map (·.1)) } := by
  unfold load_skim_info
  rw [hfold]
  rfl

/-- C6 counterexample: two files that share the matrix name `A` but report
different shapes fail with the shape assertion, not the "duplicate skim"
error — so "fails with a duplicate-skim error iff some name repeats" is false
as stated. -/
theorem c6_counterexample :
    load_skim_info "taz" [⟨"f1", (2, 2), ["A"], []⟩, ⟨"f2", (3, 3), ["A"], []⟩] [] =
      .error (.shapeMismatch (2, 2) (3, 3)) ∧
    ¬ (allMatrixNames [⟨"f1", (2, 2), ["A"], []⟩, ⟨"f2", (3, 3), ["A"], []⟩]).Nodup ∧
    isDupErr (load_skim_info "taz" [⟨"f1", (2, 2), ["A"], []⟩, ⟨"f2", (3, 3), ["A"], []⟩] [])
      = false := by
  refine ⟨rfl, by decide, rfl⟩

/-- C6 (amended): among inputs whose files all report the same shape and whose
offset mappings are mutually consistent, `load_skim_info` fails with the
"duplicate skim" fatal error iff some matrix name occurs more than once across
the enumerated files; with all names distinct it succeeds and the manifest
maps each name to the file that contributed it, in enumeration order. -/
theorem c6_amended (tag : String) (files : List OmxFile) (tags : List String)
    (sh : Nat × Nat)
    (hsh : ∀ f ∈ files, f.shape = sh)
    (hmap : mapCompat sh.1 none (allMappings files)) :
    (isDupErr (load_skim_info tag files tags) = true ↔ ¬ (allMatrixNames files).Nodup) ∧
    ((allMatrixNames files).Nodup → ∃ info, load_skim_info tag files tags = .ok info ∧
      info.omx_manifest = files.flatMap (fun f => f.matrices.map (fun n => (n, f.name)))) := by
  constructor
  · constructor
    · intro hdup hnd
      obtain ⟨st2, hfold, _, _⟩ := foldlM_processFile_ok files sh ⟨none, none, none, []⟩
        hsh (Or.inl rfl) hmap (by simpa using hnd)
      unfold load_skim_info at hdup
      rw [hfold] at hdup
      cases hdup
    · intro hnd
      have hd := foldlM_processFile_dup files sh ⟨none, none, none, []⟩
        hsh (Or.inl rfl) hmap (by simp) (by simpa using hnd)
      unfold load_skim_info
      cases hf : files.foldlM processFile ⟨none, none, none, []⟩ with
      | error e =>
        rw [hf] at hd
        exact hd
      | ok st2 => rw [hf] at hd; cases hd
  · intro hnd
    obtain ⟨st2, hfold, hman, _⟩ := foldlM_processFile_ok files sh ⟨none, none, none, []⟩
      hsh (Or.inl rfl) hmap (by simpa using hnd)
    exact ⟨_, load_skim_info_of_fold tag files tags st2 hfold, by simpa using hman⟩

/-- C6 witness: two same-shaped files with distinct matrix names load
successfully, the manifest recording each name's contributing file. -/
theorem c6_amended_witness :
    (load_skim_info "taz" [⟨"f1", (2, 2), ["A"], []⟩, ⟨"f2", (2, 2), ["B"], []⟩] []).map
      (·.omx_manifest) = .ok [("A", "f1"), ("B", "f2")] := by
  obtain ⟨info, hok, hman⟩ := (c6_amended "taz"
    [⟨"f1", (2, 2), ["A"], []⟩, ⟨"f2", (2, 2), ["B"], []⟩] [] (2, 2)
    (by decide) (by intro m0 hm0; cases hm0)).2 (by decide)
  rw [hok]
  simp only [Except.map]
  rw [hman]
  rfl

/-- C7: during `load_skim_info` (over files of uniform shape and distinct
matrix names) at most one distinct offset mapping is permitted: with no
mappings at all the catalog's offset_map is absent; the first mapping
encountered (of row-count length) is adopted and later equal-valued mappings
are accepted; and a later mapping with different entries is a fatal
multiple-mappings error. -/
theorem c7_offset_map_policy (tag : String) (files : List OmxFile) (tags : List String)
    (sh : Nat × Nat)
    (hsh : ∀ f ∈ files, f.shape = sh)
    (hnd : (allMatrixNames files).Nodup) :
    (allMappings files = [] → ∃ info, load_skim_info tag files tags = .ok info ∧
      info.offset_map = none ∧ info.offset_map_name = none) ∧
    (∀ m0 tail2, allMappings files = m0 :: tail2 → m0.2.length = sh.1 →
      (∀ m ∈ allMappings files, m.2 = m0.2) →
      ∃ info, load_skim_info tag files tags = .ok info ∧
        info.offset_map = some m0.2 ∧ info.offset_map_name = some m0.1) ∧
    (∀ m0 tail2, allMappings files = m0 :: tail2 → m0.2.length = sh.1 →
      (∃ m ∈ tail2, m.2 ≠ m0.2) →
      ∃ n1 n2, load_skim_info tag files tags = .error (.multipleMappings n1 n2)) := by
  refine ⟨?_, ?_, ?_⟩
  · intro hnomaps
    obtain ⟨st2, hfold, _, hmr⟩ := foldlM_processFile_ok files sh ⟨none, none, none, []⟩
      hsh (Or.inl rfl) (by rw [hnomaps]; intro m0 hm0; cases hm0) (by simpa using hnd)
    rw [hnomaps] at hmr
    have hmr2 : (st2.offset_map_name, st2.offset_map) =
        ((none : Option String), (none : Option (List Int))) := hmr
    obtain ⟨hn, hv⟩ := Prod.mk.inj hmr2
    exact ⟨_, load_skim_info_of_fold tag files tags st2 hfold, hv, hn⟩
  · intro m0 tail2 hdecomp hlen hall
    have hcompat : mapCompat sh.1 none (allMappings files) := by
      rw [hdecomp]
      intro w hw
      have hwg : w = m0 := by
        have := hw
        simp [List.head?] at this
        exact this.symm
      subst hwg
      refine ⟨hlen, fun m hm => ?_⟩
      rw [← hdecomp] at hm
      exact hall m hm
    obtain ⟨st2, hfold, _, hmr⟩ := foldlM_processFile_ok files sh ⟨none, none, none, []⟩
      hsh (Or.inl rfl) hcompat (by simpa using hnd)
    rw [hdecomp] at hmr
    have hmr2 : (st2.offset_map_name, st2.offset_map) = (some m0.1, some m0.2) := hmr
    obtain ⟨hn, hv⟩ := Prod.mk.inj hmr2
    exact ⟨_, load_skim_info_of_fold tag files tags st2 hfold, hv, hn⟩
  · intro m0 tail2 hdecomp hlen hex
    obtain ⟨n1, n2, hfold⟩ := foldlM_processFile_multi files sh ⟨none, none, none, []⟩
      hsh (Or.inl rfl) (by simpa using hnd)
      (Or.inr ⟨rfl, m0, tail2, hdecomp, hlen, hex⟩)
    refine ⟨n1, n2, ?_⟩
    unfold load_skim_info
    rw [hfold]
    rfl

/-- C7 witness: two files carrying equal-valued mappings `M` and `M2` load
successfully and adopt the first mapping's name and entries. -/
theorem c7_offset_map_policy_witness :
    (load_skim_info "taz" [⟨"f1", (2, 2), ["A"], [("M", [1, 2])]⟩,
      ⟨"f2", (2, 2), ["B"], [("M2", [1, 2])]⟩] []).map
        (fun si => (si.offset_map_name, si.offset_map)) = .ok (some "M", some [1, 2]) := by
  obtain ⟨info, hok, hv, hn⟩ := (c7_offset_map_policy "taz"
    [⟨"f1", (2, 2), ["A"], [("M", [1, 2])]⟩, ⟨"f2", (2, 2), ["B"], [("M2", [1, 2])]⟩] []
    (2, 2) (by decide) (by decide)).2.1 ("M", [1, 2]) [("M2", [1, 2])] rfl (by decide)
    (by decide)
  rw [hok]
  simp only [Except.map]
  rw [hv, hn]

theorem partChars_recon (l : List Char) :
    ∀ a b, partChars l = some (a, b) → l = a ++ '_' :: '_' :: b := by
  induction l with
  | nil => intro a b h; cases h
  | cons c rest ih =>
    intro a b h
    unfold partChars at h
    split at h
    · rename_i hcond
      obtain ⟨hc, hh⟩ := hcond
      obtain ⟨ha, hb⟩ := Prod.mk.inj (Option.some.inj h)
      cases rest with
      | nil => cases hh
      | cons r rtail =>
        have hr : r = '_' := by simpa [List.head?] using hh
        subst hc hr
        rw [← ha, ← hb]
        rfl
    · cases hpr : partChars rest with
      | none => rw [hpr] at h; cases h
      | some p =>
        rw [hpr] at h
        obtain ⟨pa, pb⟩ := p
        obtain ⟨ha, hb⟩ := Prod.mk.inj (Option.some.inj h)
        have hrest := ih pa pb hpr
        rw [← ha, ← hb, hrest]
        rfl

theorem keyOf_inj (n n2 : String) (h : keyOf n = keyOf n2) : n = n2 := by
  obtain ⟨l⟩ := n
  obtain ⟨l2⟩ := n2
  unfold keyOf partitionName at h
  cases hp1 : partChars l with
  | none =>
    cases hp2 : partChars l2 with
    | none =>
      rw [show (String.mk l).data = l from rfl] at h
      rw [show (String.mk l2).data = l2 from rfl] at h
      rw [hp1, hp2] at h
      simp only [ne_eq, not_true_eq_false, if_false, ite_false] at h
      simpa using h
    | some p2 =>
      obtain ⟨a2, b2⟩ := p2
      rw [show (String.mk l).data = l from rfl, show (String.mk l2).data = l2 from rfl,
        hp1, hp2] at h
      simp only at h
      rw [if_neg (by decide : ¬ ("" : String) ≠ ""),
        if_pos (by decide : ("__" : String) ≠ "")] at h
      exact SkimKey.noConfusion h
  | some p1 =>
    obtain ⟨a1, b1⟩ := p1
    cases hp2 : partChars l2 with
    | none =>
      rw [show (String.mk l).data = l from rfl, show (String.mk l2).data = l2 from rfl,
        hp1, hp2] at h
      simp only at h
      rw [if_pos (by decide : ("__" : String) ≠ ""),
        if_neg (by decide : ¬ ("" : String) ≠ "")] at h
      exact SkimKey.noConfusion h
    | some p2 =>
      obtain ⟨a2, b2⟩ := p2
      rw [show (String.mk l).data = l from rfl, show (String.mk l2).data = l2 from rfl,
        hp1, hp2] at h
      simp only [ne_eq] at h
      have h2 : SkimKey.composite ⟨a1⟩ ⟨b1⟩ = SkimKey.composite ⟨a2⟩ ⟨b2⟩ := by
        simpa using h
      obtain ⟨ha, hb⟩ := SkimKey.composite.inj h2
      have ha2 : a1 = a2 := congrArg String.data ha
      have hb2 : b1 = b2 := congrArg String.data hb
      have hl : l = a1 ++ '_' :: '_' :: b1 := partChars_recon l a1 b1 hp1
      have hl2 : l2 = a2 ++ '_' :: '_' :: b2 := partChars_recon l2 a2 b2 hp2
      rw [ha2, hb2] at hl
      rw [hl, hl2]

theorem omxKeysStep_eq (tags : List String) (acc : List (SkimKey × String)) (n : String) :
    omxKeysStep tags acc n =
      if retainedB tags n = true then pyDictSet acc (keyOf n) n else acc := by
  unfold omxKeysStep retainedB keyOf
  rcases hp : partitionName n with ⟨k1, sep, k2⟩
  simp only
  by_cases hc : tags ≠ [] ∧ sep ≠ "" ∧ k2 ∉ tags
  · rw [if_pos hc, if_pos hc]
    simp
  · rw [if_neg hc, if_neg hc]
    simp

theorem retainedB_iff (tags : List String) (n : String) :
    retainedB tags n = true ↔
      (tags = [] ∨ (partitionName n).2.1 = "" ∨ (partitionName n).2.2 ∈ tags) := by
  unfold retainedB
  rcases hp : partitionName n with ⟨k1, sep, k2⟩
  simp only
  constructor
  · intro h
    by_contra hcon
    push_neg at hcon
    obtain ⟨ht, hs, hk⟩ := hcon
    rw [if_pos ⟨ht, hs, hk⟩] at h
    cases h
  · intro hor
    rw [if_neg]
    rintro ⟨ht, hs, hk⟩
    rcases hor with h1 | h2 | h3
    · exact ht h1
    · exact hs h2
    · exact hk h3

theorem omxKeysOf_char (tags : List String) (names : List String) (hnd : names.Nodup) :
    omxKeysOf tags names =
      (names.filter (retainedB tags)).map (fun n => (keyOf n, n)) := by
  induction names using List.reverseRecOn with
  | nil => rfl
  | append_singleton ns n ih =>
    rw [List.nodup_append] at hnd
    obtain ⟨hns, -, hdisj⟩ := hnd
    have hn_not : n ∉ ns := fun hmem => hdisj hmem (List.mem_singleton_self n)
    have hstep : omxKeysOf tags (ns ++ [n]) = omxKeysStep tags (omxKeysOf tags ns) n := by
      simp [omxKeysOf, List.foldl_append]
    rw [hstep, ih hns, omxKeysStep_eq]
    by_cases hr : retainedB tags n = true
    · rw [if_pos hr]
      have hnotin : alookup (keyOf n)
          ((ns.filter (retainedB tags)).map (fun m => (keyOf m, m))) = none := by
        apply alookup_eq_none_keys
        rw [List.map_map]
        intro hmem
        rcases List.mem_map.mp hmem with ⟨m, hm, hkm⟩
        have hmn : m = n := keyOf_inj m n (by simpa using hkm)
        apply hn_not
        rw [← hmn]
        exact (List.mem_filter.mp hm).1
      unfold pyDictSet
      rw [hnotin]
      rw [if_neg (by simp)]
      rw [List.filter_append, List.map_append]
      congr 1
      rw [show List.filter (retainedB tags) [n] = [n] by simp [List.filter, hr]]
      rfl
    · rw [if_neg hr]
      rw [List.filter_append]
      have hrf : retainedB tags n = false := by simpa using hr
      rw [show List.filter (retainedB tags) [n] = [] by simp [List.filter, hrf]]
      simp

theorem procShape_state (st : ManifestState) (f : OmxFile) (stA : ManifestState)
    (h : procShape st f = .ok stA) : stA.omx_manifest = st.omx_manifest ∧
      stA.offset_map_name = st.offset_map_name ∧ stA.offset_map = st.offset_map := by
  unfold procShape at h
  cases hsh : st.omx_shape with
  | none =>
    rw [hsh] at h
    simp only at h
    have h2 := Except.ok.inj h
    rw [← h2]
    exact ⟨rfl, rfl, rfl⟩
  | some sh =>
    rw [hsh] at h
    simp only at h
    by_cases hshape : sh = f.shape
    · rw [if_pos hshape] at h
      have h2 := Except.ok.inj h
      rw [← h2]
      exact ⟨rfl, rfl, rfl⟩
    · rw [if_neg hshape] at h
      cases h

theorem procMatrices_ok_nodup (fn : String) (ns : List String) :
    ∀ man man2, procMatrices fn ns man = .ok man2 →
    (man.map (·.1)).Nodup → (man2.map (·.1)).Nodup := by
  induction ns with
  | nil =>
    intro man man2 h hnd
    have h2 := Except.ok.inj h
    rw [← h2]
    exact hnd
  | cons n rest ih =>
    intro man man2 h hnd
    unfold procMatrices at h
    cases halo : alookup n man with
    | some p => rw [halo] at h; cases h
    | none =>
      rw [halo] at h
      apply ih _ _ h
      rw [List.map_append, List.nodup_append]
      refine ⟨hnd, by simp, ?_⟩
      simp only [List.map_cons, List.map_nil]
      rw [List.disjoint_singleton]
      intro hmem
      have := (alookup_isSome_iff man n).mpr hmem
      rw [halo] at this
      cases this

theorem processFile_ok_nodup (st : ManifestState) (f : OmxFile) (st1 : ManifestState)
    (h : processFile st f = .ok st1) (hnd : (st.omx_manifest.map (·.1)).Nodup) :
    (st1.omx_manifest.map (·.1)).Nodup := by
  unfold processFile at h
  cases h1 : procShape st f with
  | error e => rw [h1] at h; cases h
  | ok stA =>
    rw [h1] at h
    simp only [Bind.bind, Except.bind] at h
    obtain ⟨hAman, -, -⟩ := procShape_state st f stA h1
    cases h2 : procMatrices f.name f.matrices stA.omx_manifest with
    | error e => rw [h2] at h; cases h
    | ok man =>
      rw [h2] at h
      simp only at h
      cases h3 : procMappings ((stA.omx_shape.getD f.shape).1) f.mappings
          (stA.offset_map_name, stA.offset_map) with
      | error e => rw [h3] at h; cases h
      | ok om =>
        rw [h3] at h
        simp only at h
        have h4 := Except.ok.inj h
        rw [← h4]
        exact procMatrices_ok_nodup f.name f.matrices stA.omx_manifest man h2
          (by rw [hAman]; exact hnd)

theorem foldlM_manifest_nodup (files : List OmxFile) :
    ∀ st st2, files.foldlM processFile st = .ok st2 →
    (st.omx_manifest.map (·.1)).Nodup → (st2.omx_manifest.map (·.1)).Nodup := by
  induction files with
  | nil =>
    intro st st2 h hnd
    have h2 := Except.ok.inj h
    rw [← h2]
    exact hnd
  | cons f rest ih =>
    intro st st2 h hnd
    rw [List.foldlM_cons] at h
    cases hpf : processFile st f with
    | error e => rw [hpf] at h; cases h
    | ok st1 =>
      rw [hpf] at h
      exact ih st1 st2 h (processFile_ok_nodup st f st1 hpf hnd)

/-- C4: a matrix name is retained by `load_skim_info` iff it has no `'__'`
period component or its period label is in the configured (nonempty) set,
and with no configured labels every name is retained; on the spec's example
(files contributing DIST, TIME__AM, TIME__PM with periods {AM, PM}) the
block offsets are DIST ↦ 0, (TIME, AM) ↦ 1, (TIME, PM) ↦ 2 and num_skims
is 3. -/
theorem c4_retention (tag : String) (files : List OmxFile) (tags : List String)
    (info : SkimInfo) (h : load_skim_info tag files tags = .ok info) :
    (∀ name ∈ info.omx_manifest.map (·.1),
      ((∃ k, (k, name) ∈ info.omx_keys) ↔
        (tags = [] ∨ (partitionName name).2.1 = "" ∨ (partitionName name).2.2 ∈ tags))) ∧
    (load_skim_info "taz" [⟨"f1", (2, 2), ["DIST"], []⟩,
        ⟨"f2", (2, 2), ["TIME__AM", "TIME__PM"], []⟩] ["AM", "PM"]).map
      (fun si => (si.num_skims, si.block_offsets)) =
      .ok (3, [(.scalar "DIST", 0), (.composite "TIME" "AM", 1),
        (.composite "TIME" "PM", 2)]) := by
  refine ⟨?_, by rfl⟩
  obtain ⟨st, hst, hinfo⟩ := load_skim_info_ok_inv tag files tags info h
  subst hinfo
  simp only
  intro name hname
  have hnd : (st.omx_manifest.map (·.1)).Nodup :=
    foldlM_manifest_nodup files _ st hst (by simp)
  rw [omxKeysOf_char tags _ hnd]
  constructor
  · rintro ⟨k, hk⟩
    rcases List.mem_map.mp hk with ⟨m, hm, hpair⟩
    obtain ⟨hk1, hk2⟩ := Prod.mk.inj hpair
    rw [← retainedB_iff, ← hk2]
    exact (List.mem_filter.mp hm).2
  · intro hcond
    refine ⟨keyOf name, List.mem_map.mpr ?_⟩
    exact ⟨name, List.mem_filter.mpr ⟨hname, (retainedB_iff tags name).mpr hcond⟩, rfl⟩

/-- C4 witness: the DIST / TIME__AM / TIME__PM example — TIME__AM is
retained (its period AM is requested) and DIST is retained (no period). -/
theorem c4_retention_witness :
    ((∃ k, (k, "TIME__AM") ∈ SkimInfo.omx_keys
      { skim_tag := "taz", omx_file_names := ["f1", "f2"],
        omx_manifest := [("DIST", "f1"), ("TIME__AM", "f2"), ("TIME__PM", "f2")],
        omx_shape := some (2, 2), num_skims := 3, dtype := .float32,
        offset_map_name := none, offset_map := none,
        omx_keys := [(.scalar "DIST", "DIST"), (.composite "TIME" "AM", "TIME__AM"),
          (.composite "TIME" "PM", "TIME__PM")],
        key1_block_offsets := [("DIST", 0), ("TIME", 1)],
        block_offsets := [(.scalar "DIST", 0), (.composite "TIME" "AM", 1),
          (.composite "TIME" "PM", 2)] }) ↔
      (["AM", "PM"] = ([] : List String) ∨ (partitionName "TIME__AM").2.1 = "" ∨
        (partitionName "TIME__AM").2.2 ∈ ["AM", "PM"])) ∧
    (load_skim_info "taz" [⟨"f1", (2, 2), ["DIST"], []⟩,
        ⟨"f2", (2, 2), ["TIME__AM", "TIME__PM"], []⟩] ["AM", "PM"]).map
      (fun si => (si.num_skims, si.block_offsets)) =
      .ok (3, [(.scalar "DIST", 0), (.composite "TIME" "AM", 1),
        (.composite "TIME" "PM", 2)]) := by
  have hc := c4_retention "taz" [⟨"f1", (2, 2), ["DIST"], []⟩,
      ⟨"f2", (2, 2), ["TIME__AM", "TIME__PM"], []⟩] ["AM", "PM"]
    { skim_tag := "taz", omx_file_names := ["f1", "f2"],
      omx_manifest := [("DIST", "f1"), ("TIME__AM", "f2"), ("TIME__PM", "f2")],
      omx_shape := some (2, 2), num_skims := 3, dtype := .float32,
      offset_map_name := none, offset_map := none,
      omx_keys := [(.scalar "DIST", "DIST"), (.composite "TIME" "AM", "TIME__AM"),
        (.composite "TIME" "PM", "TIME__PM")],
      key1_block_offsets := [("DIST", 0), ("TIME", 1)],
      block_offsets := [(.scalar "DIST", 0), (.composite "TIME" "AM", 1),
        (.composite "TIME" "PM", 2)] } (by rfl)
  exact ⟨hc.1 "TIME__AM" (by decide), hc.2⟩
